import Mathlib

/-!
# Verification of the Landings logbook-to-airport matching core

Shallow embedding of the TypeScript source of the Landings repository:
the identifier normalizer (`normalize.ts`), the ForeFlight logbook parser
(`foreflight.ts`), the facility catalog loader (`datasets.ts`), the
coverage/matching engine (`coverage.ts`) and the coverage aggregation in
`LandingsApp.tsx`.

Strings are modelled as Lean `String`/`List Char`; JavaScript numbers that
only ever hold parsed decimal literals are modelled as `ℚ`; JavaScript
`Map` objects are modelled as insertion-ordered association lists
(updates keep the original position, as JS `Map.set` does); JS `Set`
objects of strings are modelled as `List String` queried by membership.
JavaScript `undefined` for optional values is modelled by `Option`.
`String.prototype.toUpperCase`/`toLowerCase` are modelled on the ASCII
letters (the only letters the airport data contains).
-/

namespace Landings

/-- JS whitespace characters relevant to `String.prototype.trim` and `\s`
(ASCII whitespace plus no-break space). -/
def wsChar (c : Char) : Bool :=
  c.toNat = 32 || c.toNat = 9 || c.toNat = 10 || c.toNat = 13 ||
  c.toNat = 11 || c.toNat = 12 || c.toNat = 160

/-- ASCII uppercase mapping, modelling `String.prototype.toUpperCase`
character-wise on ASCII. -/
def upChar (c : Char) : Char :=
  if h : 97 ≤ c.toNat ∧ c.toNat ≤ 122 then
    ⟨⟨⟨c.toNat - 32, by omega⟩⟩, Or.inl (show c.toNat - 32 < 55296 by omega)⟩
  else c

/-- ASCII lowercase mapping, modelling `String.prototype.toLowerCase`
character-wise on ASCII. -/
def lowChar (c : Char) : Char :=
  if h : 65 ≤ c.toNat ∧ c.toNat ≤ 90 then
    ⟨⟨⟨c.toNat + 32, by omega⟩⟩, Or.inl (show c.toNat + 32 < 55296 by omega)⟩
  else c

/-- Membership in the character class `[A-Z0-9]` of `normalizeFacilityId`. -/
def keepChar (c : Char) : Bool :=
  (65 ≤ c.toNat && c.toNat ≤ 90) || (48 ≤ c.toNat && c.toNat ≤ 57)

/-- Membership in the character class `[a-z0-9]` of `normalizeHeaderCell`. -/
def lowKeep (c : Char) : Bool :=
  (97 ≤ c.toNat && c.toNat ≤ 122) || (48 ≤ c.toNat && c.toNat ≤ 57)

/-- The digit class `\d`. -/
def digitChar (c : Char) : Bool :=
  48 ≤ c.toNat && c.toNat ≤ 57

/-- Drop the maximal run of characters satisfying `p` from both ends of a
list; models a `replace(edge-anchored-class-run, "")` pair such as
`^[^A-Z0-9]+|[^A-Z0-9]+$` as well as `trim` (with `p := wsChar`). -/
def dropEdges (p : Char → Bool) (l : List Char) : List Char :=
  ((l.dropWhile p).reverse.dropWhile p).reverse

/-- JS `String.prototype.trim` (model). -/
def jsTrim (s : String) : String :=
  String.mk (dropEdges wsChar s.data)

/-- Models `value.trim() === ""`: the string is all whitespace. -/
def blankStr (s : String) : Bool :=
  s.data.all wsChar

/-! ## `normalize.ts` (`src/lib/normalize.ts`) -/

/-- The test `/^K[A-Z0-9]{3,4}$/.test(cleaned)` of `normalizeFacilityId`. -/
def kPattern (l : List Char) : Bool :=
  match l with
  | c :: rest =>
      c = 'K' && (rest.length = 3 || rest.length = 4) && rest.all keepChar
  | [] => false

/-- The `cleaned` value of `normalizeFacilityId`:
`token.trim().toUpperCase().replace(edge-runs-outside-[A-Z0-9], "")`. -/
def cleanedToken (token : String) : List Char :=
  dropEdges (fun c => !keepChar c) ((dropEdges wsChar token.data).map upChar)

/-- Embedding of `normalizeFacilityId` from `normalize.ts`: trim, uppercase, strip
leading/trailing non-`[A-Z0-9]` runs, then strip a leading `K` when the
cleaned token matches `^K[A-Z0-9]{3,4}$`. -/
def normalizeFacilityId (token : String) : String :=
  let cleaned := cleanedToken token
  if cleaned = [] then ""
  else if kPattern cleaned then String.mk (cleaned.drop 1)
  else String.mk cleaned

/-- Does the list contain two adjacent characters, the first satisfying
`p` and the second satisfying `q`?  Models substring tests such as
`/[NS]\d/.test(s)`. -/
def adjacentPair (p q : Char → Bool) : List Char → Bool
  | [] => false
  | [_] => false
  | a :: b :: rest => (p a && q b) || adjacentPair p q (b :: rest)

/-- Consume a maximal run of `\d`, requiring the run length to lie in
`[lo, hi]`; returns the rest.  A longer run fails, matching the behaviour
of `\d{lo,hi}` followed by a non-digit in an anchored regex. -/
def takeDigits (lo hi : Nat) (l : List Char) : Option (List Char × List Char) :=
  let run := l.takeWhile digitChar
  if lo ≤ run.length && run.length ≤ hi then some (run, l.dropWhile digitChar)
  else none

/-- Consume `\.\d+` if the next character is a dot (mandatory digits after
the dot), otherwise consume nothing.  Models `(?:\.\d+)?` inside an
anchored regex whose following element cannot match a dot or digit. -/
def takeFrac : List Char → Option (List Char × List Char)
  | '.' :: rest =>
      let run := rest.takeWhile digitChar
      if run.length = 0 then none
      else some (run, rest.dropWhile digitChar)
  | l => some ([], l)

/-- Consume `\d{lo,hi}(?:\.\d+)?` and return the digit strings
(integer part, fraction part) and the rest. -/
def takeDecimal (lo hi : Nat) (l : List Char) :
    Option ((List Char × List Char) × List Char) := do
  let (ip, r1) ← takeDigits lo hi l
  let (fp, r2) ← takeFrac r1
  pure ((ip, fp), r2)

/-- Embeds `/^[-+]?\d{1,3}\.\d+[NS]?$/.test(s)`: a signed decimal with a
mandatory fraction and an optional trailing `N`/`S` (case-sensitive). -/
def decimalWithNS (l : List Char) : Bool :=
  let l1 := match l with
    | '-' :: r => r
    | '+' :: r => r
    | r => r
  match takeDigits 1 3 l1 with
  | none => false
  | some (_, r2) =>
      match r2 with
      | '.' :: r3 =>
          let run := r3.takeWhile digitChar
          if run.length = 0 then false
          else match r3.dropWhile digitChar with
            | [] => true
            | ['N'] => true
            | ['S'] => true
            | _ => false
      | _ => false

/-- Strip one optional sign. -/
def stripSign : List Char → List Char
  | '-' :: r => r
  | '+' :: r => r
  | r => r

/-- Consume `\d{1,n}\.\d+` (mandatory fraction); true when it also
consumes `rest` check passes through continuation `k`. -/
def decimalThen (hi : Nat) (l : List Char) (k : List Char → Bool) : Bool :=
  match takeDigits 1 hi l with
  | none => false
  | some (_, r2) =>
      match r2 with
      | '.' :: r3 =>
          let run := r3.takeWhile digitChar
          if run.length = 0 then false else k (r3.dropWhile digitChar)
      | _ => false

/-- Embeds `/^[-+]?\d{1,3}\.\d+[,\x2f][-+]?\d{1,3}\.\d+$/.test(s)`. -/
def decimalPair (l : List Char) : Bool :=
  decimalThen 3 (stripSign l) fun r =>
    match r with
    | ',' :: r2 => decimalThen 3 (stripSign r2) (· = [])
    | '/' :: r2 => decimalThen 3 (stripSign r2) (· = [])
    | _ => false

/-- Embeds `/^[NS]\d{1,2}\.\d+[\x2f,][EW]\d{1,3}\.\d+$/i.test(s)` (case-insensitive). -/
def hemiPair (l : List Char) : Bool :=
  match l with
  | c :: r =>
      (c = 'N' || c = 'S' || c = 'n' || c = 's') &&
      decimalThen 2 r fun r2 =>
        match r2 with
        | sep :: c2 :: r3 =>
            (sep = '/' || sep = ',') &&
            (c2 = 'E' || c2 = 'W' || c2 = 'e' || c2 = 'w') &&
            decimalThen 3 r3 (· = [])
        | _ => false
  | [] => false

/-- Embedding of `isCoordinateToken` from `normalize.ts`. -/
def isCoordinateToken (token : String) : Bool :=
  let trimmed := (dropEdges wsChar token.data)
  if trimmed = [] then false
  else if trimmed.contains '°' then true
  else if adjacentPair (fun c => c = 'N' || c = 'S') digitChar trimmed then true
  else if adjacentPair digitChar (fun c => c = 'N' || c = 'S') trimmed then true
  else if adjacentPair (fun c => c = 'E' || c = 'W') digitChar trimmed then true
  else if adjacentPair digitChar (fun c => c = 'E' || c = 'W') trimmed then true
  else if decimalWithNS trimmed then true
  else if decimalPair trimmed then true
  else if hemiPair trimmed then true
  else false

/-- The separator set of `tokenizeText`: the character class
`[\s,;()\[\]\x7b\x7d<>\x2f\\|]` together with `-` (the alternative `--?`
makes any hyphen run a separator) and `_`.  Splitting on single
characters from this set produces the same non-empty tokens as the
source's alternation regex. -/
def sepChar (c : Char) : Bool :=
  wsChar c || c = ',' || c = ';' || c = '(' || c = ')' || c = '[' || c = ']' ||
  c = '\x7b' || c = '\x7d' || c = '<' || c = '>' || c = '/' || c = '\\' ||
  c = '|' || c = '-' || c = '_'

/-- Split a character list on separator characters, keeping only the
non-separator fragments (empty fragments dropped); `acc` holds the
reversed current fragment. -/
def splitTokensAux : List Char → List Char → List (List Char)
  | [], acc => if acc = [] then [] else [acc.reverse]
  | c :: rest, acc =>
      if sepChar c then
        if acc = [] then splitTokensAux rest []
        else acc.reverse :: splitTokensAux rest []
      else splitTokensAux rest (c :: acc)

def splitTokens (l : List Char) : List (List Char) :=
  splitTokensAux l []

/-- Embedding of `tokenizeText` from `normalize.ts`: split on the separator regex,
trim each token, drop empties. -/
def tokenizeText (text : String) : List String :=
  (((splitTokens text.data).map (fun l => dropEdges wsChar l)).filter
    (fun l => l ≠ [])).map String.mk

/-! ## `foreflight.ts` (`src/lib/foreflight.ts`)

The CSV text is first handed to the external Papa Parse library
(`Papa.parse(csvText, { skipEmptyLines: false })`), an external
collaborator that splits the text into rows of string cells and may
report parse errors (e.g. `"Quoted field unterminated"` for an unclosed
quote, or a delimiter-detection failure).  We embed everything from that
boundary on: `PapaResult` is the parser's output `{ data, errors }`, with
`errors` the list of error message strings. -/

/-- Output of `Papa.parse<string[]>`: row data plus error messages. -/
structure PapaResult where
  data : List (List String)
  errors : List String
  deriving Repr, DecidableEq

structure FlightRow where
  date : String
  fromAp : String
  toAp : String
  textFields : List String
  deriving Repr, DecidableEq

structure FlightsParseResult where
  flights : List FlightRow
  error : Option String
  deriving Repr, DecidableEq

def DATE_HEADER_ALIASES : List String := ["date", "flightdate"]

def FROM_HEADER_ALIASES : List String :=
  ["from", "origin", "departure", "fromairport", "departureairport"]

def TO_HEADER_ALIASES : List String :=
  ["to", "destination", "arrival", "toairport", "arrivalairport"]

def TEXT_HEADER_HINTS : List String :=
  ["notes", "remarks", "route", "comment", "via", "approach", "procedure"]

/-- Embedding of `normalizeHeaderCell`: trim, lowercase, remove every character
outside `[a-z0-9]` (the global replace removes interior runs too). -/
def normalizeHeaderCell (value : String) : String :=
  String.mk (((dropEdges wsChar value.data).map lowChar).filter lowKeep)

/-- Embedding of `isRowEmpty`: every cell trims to the empty string. -/
def isRowEmpty (row : List String) : Bool :=
  row.all blankStr

/-- Does `l` end with the characters of `suffix`? -/
def endsWithL (l suffix : List Char) : Bool :=
  decide (suffix.length ≤ l.length) && (l.drop (l.length - suffix.length) = suffix)

/-- Embedding of `isSectionHeader`: the first cell, trimmed, is non-empty and matches
`/Table\s*$/i`, i.e. ends with `table` case-insensitively. -/
def isSectionHeader (row : List String) : Bool :=
  match row with
  | [] => false
  | first :: _ =>
      let f := dropEdges wsChar first.data
      f ≠ [] && endsWithL (f.map lowChar) "table".data

/-- The predicate of `findFlightsHeaderIndex`: the row's normalized cells
contain at least one alias for each of date, from and to. -/
def isFlightsHeaderRow (row : List String) : Bool :=
  let normalized := row.map normalizeHeaderCell
  DATE_HEADER_ALIASES.any (fun h => normalized.contains h) &&
  FROM_HEADER_ALIASES.any (fun h => normalized.contains h) &&
  TO_HEADER_ALIASES.any (fun h => normalized.contains h)

/-- JS `Array.prototype.findIndex` (`none` models `-1`). -/
def jsFindIndex {α : Type} (p : α → Bool) : List α → Option Nat
  | [] => none
  | a :: l => if p a then some 0 else (jsFindIndex p l).map (· + 1)

/-- Embedding of `findFlightsHeaderIndex`. -/
def findFlightsHeaderIdx (rows : List (List String)) : Option Nat :=
  jsFindIndex isFlightsHeaderRow rows

/-- Embedding of `findColumnIndex`: first alias that occurs in the headers wins;
`none` models `-1`. -/
def findColumnIdx (headers : List String) : List String → Option Nat
  | [] => none
  | a :: rest =>
      match jsFindIndex (fun h => h = a) headers with
      | some i => some i
      | none => findColumnIdx headers rest

/-- Embedding of `findTextColumns`: indices of headers containing any text hint as a
substring. -/
def findTextColumns (headers : List String) : List Nat :=
  ((headers.enum).filter
    (fun p => TEXT_HEADER_HINTS.any (fun hint => p.2.containsSubstr hint))).map (·.1)

/-- Embedding of `extractTextFields`: the cells at the text columns (missing cells
become `""`), keeping only those with non-blank content. -/
def extractTextFields (row : List String) (textIdxs : List Nat) : List String :=
  (textIdxs.map (fun i => row.getD i "")).filter (fun v => !blankStr v)

/-- Build one `FlightRow` from a data row (missing cells become `""`). -/
def mkFlightRow (dateIdx fromIdx toIdx : Nat) (textIdxs : List Nat)
    (row : List String) : FlightRow :=
  { date := row.getD dateIdx ""
    fromAp := row.getD fromIdx ""
    toAp := row.getD toIdx ""
    textFields := extractTextFields row textIdxs }

/-- The data-row scan loop of `parseForeFlightCsv`: stop at a section
header, or once the consecutive-blank-row counter `emptyRun` reaches 3;
blank rows produce nothing and non-blank rows reset the counter. -/
def scanFlightRows (dateIdx fromIdx toIdx : Nat) (textIdxs : List Nat) :
    List (List String) → Nat → List FlightRow
  | [], _ => []
  | row :: rest, emptyRun =>
      if isSectionHeader row then []
      else if isRowEmpty row then
        if emptyRun + 1 ≥ 3 then []
        else scanFlightRows dateIdx fromIdx toIdx textIdxs rest (emptyRun + 1)
      else
        mkFlightRow dateIdx fromIdx toIdx textIdxs row ::
          scanFlightRows dateIdx fromIdx toIdx textIdxs rest 0

/-- The table-locating and scanning part of `parseForeFlightCsv`, applied
to the non-empty rows of the Papa Parse output. -/
def parseForeFlightRows (rows : List (List String)) : FlightsParseResult :=
  match findFlightsHeaderIdx rows with
  | none => { flights := [], error := some "No Flights Table found." }
  | some headerIndex =>
      match findColumnIdx ((rows.getD headerIndex []).map normalizeHeaderCell)
              FROM_HEADER_ALIASES,
            findColumnIdx ((rows.getD headerIndex []).map normalizeHeaderCell)
              TO_HEADER_ALIASES,
            findColumnIdx ((rows.getD headerIndex []).map normalizeHeaderCell)
              DATE_HEADER_ALIASES with
      | some fromIdx, some toIdx, some dateIdx =>
          { flights :=
              scanFlightRows dateIdx fromIdx toIdx
                (findTextColumns ((rows.getD headerIndex []).map normalizeHeaderCell))
                (rows.drop (headerIndex + 1)) 0
            error := none }
      | _, _, _ => { flights := [], error := some "No Flights Table found." }

/-- Embedding of `parseForeFlightCsv` from `foreflight.ts`, taken from the Papa
Parse output boundary on: forward the first parse error if any, else drop
zero-column rows and process the remainder. -/
def parseForeFlightCsv (pr : PapaResult) : FlightsParseResult :=
  match pr.errors with
  | m :: _ =>
      { flights := [], error := some (if m = "" then "CSV parse error" else m) }
  | [] => parseForeFlightRows (pr.data.filter (fun row => row.length > 0))

/-! ## `datasets.ts` (`src/lib/datasets.ts`)

`Papa.parse` with `header: true` turns each CSV data row into a record of
header-name/cell pairs; we embed from that boundary on, modelling a row
record as an association list (`rowGet` returns `none` for an absent
column, matching `undefined`). -/

/-- A header-keyed CSV row as produced by Papa Parse (`Record<string,string>`). -/
abbrev CsvRow := List (String × String)

def rowGet (row : CsvRow) (k : String) : Option String :=
  (row.find? (fun p => p.1 = k)).map (·.2)

/-- The JS chain `row.k1 || row.k2 || ... || ""`: the first key whose
value is present and non-empty (truthy) wins, else `""`. -/
def firstTruthy (row : CsvRow) : List String → String
  | [] => ""
  | k :: rest =>
      match rowGet row k with
      | some v => if v = "" then firstTruthy row rest else v
      | none => firstTruthy row rest

def natOfDigits (l : List Char) : Nat :=
  l.foldl (fun n c => n * 10 + (c.toNat - 48)) 0

/-- The rational denoted by integer-part and fraction-part digit strings. -/
def ratOfParts (ip fp : List Char) : ℚ :=
  (natOfDigits ip : ℚ) + (natOfDigits fp : ℚ) / ((10 : ℚ) ^ fp.length)

/-- Value of an exponent suffix `[+-]?\d+` (0 when no digits follow,
matching `parseFloat` leaving an incomplete exponent unconsumed). -/
def parseExpPart (l : List Char) : Int :=
  let (sgn, r) : (Int × List Char) :=
    match l with
    | '-' :: r => (-1, r)
    | '+' :: r => (1, r)
    | r => (1, r)
  let ds := r.takeWhile digitChar
  if ds.length = 0 then 0 else sgn * (natOfDigits ds : Int)

/-- Model of `Number.isFinite(parseFloat(s)) ? parseFloat(s) : undefined`:
JS `parseFloat` parses the longest numeric prefix (optional sign, digits
with optional fraction, optional exponent), yielding `NaN` (here `none`)
when no digits are found, and `±Infinity` (also `none` after the
finiteness check) for the `Infinity` keyword. -/
def jsParseFloatFinite (s : String) : Option ℚ :=
  let l := s.data.dropWhile wsChar
  let (sgn, l1) : (ℚ × List Char) :=
    match l with
    | '-' :: r => (-1, r)
    | '+' :: r => (1, r)
    | r => (1, r)
  if l1.take 8 = "Infinity".data then none
  else
    let ip := l1.takeWhile digitChar
    let r1 := l1.dropWhile digitChar
    let (fp, r2) : (List Char × List Char) :=
      match r1 with
      | '.' :: r => (r.takeWhile digitChar, r.dropWhile digitChar)
      | _ => ([], r1)
    if ip.length = 0 && fp.length = 0 then none
    else
      let mantissa := ratOfParts ip fp
      let e : Int :=
        match r2 with
        | 'e' :: rest => parseExpPart rest
        | 'E' :: rest => parseExpPart rest
        | _ => 0
      some (if 0 ≤ e then sgn * mantissa * (10 : ℚ) ^ e.toNat
            else sgn * mantissa / (10 : ℚ) ^ (-e).toNat)

inductive SurfaceCategory where
  | paved | unpaved | water | unknown
  deriving Repr, DecidableEq

inductive SourceTag where
  | publicSrc | ourairports
  deriving Repr, DecidableEq

/-- The `Facility` record of `datasets.ts`.  Optional TS fields are
`Option`; the catalog parsers set every field of the records they build
(with `undefined` for absent data), which is what the object-spread
modelling in `buildScopeFacilities` relies on. -/
structure Facility where
  id : String
  state : Option String := none
  name : String
  city : String := ""
  county : String := ""
  latitude : Option ℚ := none
  longitude : Option ℚ := none
  towered : Option Bool := none
  longestRunwayFt : Option ℚ := none
  surfaceCategory : Option SurfaceCategory := none
  source : SourceTag
  type : Option String := none
  sources : Option String := none
  corroborated : Option String := none
  deriving Repr, DecidableEq

def toLowerStr (s : String) : String :=
  String.mk (s.data.map lowChar)

/-- The facility record built by `parseFacilitiesMaster` for one row
(only reached when the normalized id is non-empty). -/
def facilityOfRow (row : CsvRow) : Facility :=
  { id := normalizeFacilityId (firstTruthy row ["id", "AIRPORTID", "AIRPORT_ID", "AIRPORT"])
    state := some (jsTrim (firstTruthy row ["state", "STATE", "STATE_CODE"]))
    name :=
      if jsTrim (firstTruthy row ["name", "NAME", "AIRPORTNAME", "AIRPORT_NAME"]) = "" then
        normalizeFacilityId (firstTruthy row ["id", "AIRPORTID", "AIRPORT_ID", "AIRPORT"])
      else jsTrim (firstTruthy row ["name", "NAME", "AIRPORTNAME", "AIRPORT_NAME"])
    city := jsTrim (firstTruthy row ["city", "CITY", "CITY_NAME", "MUNICIPALITY"])
    county := jsTrim (firstTruthy row ["county", "COUNTY"])
    latitude := jsParseFloatFinite (firstTruthy row ["latitude", "LATITUDE", "LAT"])
    longitude := jsParseFloatFinite (firstTruthy row ["longitude", "LONGITUDE", "LON", "LONG"])
    towered :=
      if toLowerStr (jsTrim (firstTruthy row ["towered", "TOWERED"])) = "yes" ||
         toLowerStr (jsTrim (firstTruthy row ["towered", "TOWERED"])) = "true" then some true
      else if toLowerStr (jsTrim (firstTruthy row ["towered", "TOWERED"])) = "no" ||
              toLowerStr (jsTrim (firstTruthy row ["towered", "TOWERED"])) = "false" then
        some false
      else none
    longestRunwayFt :=
      jsParseFloatFinite (firstTruthy row ["longest_runway_ft", "LONGEST_RUNWAY_FT"])
    surfaceCategory :=
      if toLowerStr (jsTrim (firstTruthy row ["surface_category", "SURFACE_CATEGORY"]))
          = "paved" then some .paved
      else if toLowerStr (jsTrim (firstTruthy row ["surface_category", "SURFACE_CATEGORY"]))
          = "unpaved" then some .unpaved
      else if toLowerStr (jsTrim (firstTruthy row ["surface_category", "SURFACE_CATEGORY"]))
          = "water" then some .water
      else if toLowerStr (jsTrim (firstTruthy row ["surface_category", "SURFACE_CATEGORY"]))
          = "unknown" then some .unknown
      else none
    source := .publicSrc
    type := rowGet row "type"
    sources := rowGet row "sources"
    corroborated := rowGet row "corroborated" }

/-- The body of the `flatMap` of `parseFacilitiesMaster`: parse one
header-keyed row into zero or one `Facility` (rows with no usable id are
dropped). -/
def parseFacilityRow (row : CsvRow) : List Facility :=
  if normalizeFacilityId (firstTruthy row ["id", "AIRPORTID", "AIRPORT_ID", "AIRPORT"]) = ""
  then []
  else [facilityOfRow row]

/-- Embedding of `parseFacilitiesMaster` from `datasets.ts`, taken from the Papa
Parse header-mode boundary on. -/
def parseFacilitiesMaster (rows : List CsvRow) : List Facility :=
  rows.flatMap parseFacilityRow

/-! ## `coverage.ts` (`src/lib/coverage.ts`) -/

inductive Scope where
  | publicScope | privateScope | heliport | seaplane | all
  deriving Repr, DecidableEq

inductive SourceType where
  | endpoint_from | endpoint_to | notes_match
  deriving Repr, DecidableEq

structure MatchCounts where
  endpoint_from : Nat := 0
  endpoint_to : Nat := 0
  notes_match : Nat := 0
  deriving Repr, DecidableEq

structure FacilityMatch where
  id : String
  counts : MatchCounts
  deriving Repr, DecidableEq

def BRAVO_EXCLUSIONS : List String := ["SFO", "LAX", "SAN"]

def PRIVATE_TYPES : List String := ["small_airport", "medium_airport", "large_airport"]

/-- JS `Map` as an insertion-ordered association list: lookup. -/
def alistGet {α : Type} (m : List (String × α)) (k : String) : Option α :=
  (m.find? (fun p => p.1 = k)).map (·.2)

/-- JS `Map.set`: update in place (keeping the original insertion
position) or append. -/
def alistSet {α : Type} : List (String × α) → String → α → List (String × α)
  | [], k, v => [(k, v)]
  | (k', v') :: rest, k, v =>
      if k' = k then (k, v) :: rest else (k', v') :: alistSet rest k v

/-- JS truthiness of the optional `latitude` field: `undefined` and `0`
are falsy. -/
def latTruthy : Option ℚ → Bool
  | none => false
  | some v => v ≠ 0

/-- Models the object spread `{ ...existing, ...facility }` in
`buildScopeFacilities`.  Every `Facility` key is an own property of the
records the catalog parsers build (optional fields are present with
value `undefined`), so each field of the later record wins. -/
def objectSpread (_existing later : Facility) : Facility := later

/-- The `combined` list assembled by `buildScopeFacilities` for a scope
(before de-duplication). -/
def scopeCombined (scope : Scope) (publicFacilities ourFacilities : List Facility) :
    List Facility :=
  let publicIds := publicFacilities.map (·.id)
  let publicList := publicFacilities
  let privateList := ourFacilities.filter (fun f =>
    (f.type.getD "") ≠ "" && PRIVATE_TYPES.contains (f.type.getD "") &&
    !publicIds.contains f.id)
  let heliports := ourFacilities.filter (fun f => f.type = some "heliport")
  let seaplane := ourFacilities.filter (fun f => f.type = some "seaplane_base")
  match scope with
  | .publicScope => publicList
  | .privateScope => privateList
  | .heliport => heliports
  | .seaplane => seaplane
  | .all => publicList ++ privateList ++ heliports ++ seaplane

/-- The de-duplication update of `buildScopeFacilities` for one facility
(after the bravo-exclusion skip): first-seen wins unless the stored entry
has falsy latitude and the new one truthy latitude, in which case the
spread `{ ...existing, ...facility }` replaces it. -/
def dedupCore (m : List (String × Facility)) (f : Facility) :
    List (String × Facility) :=
  match alistGet m f.id with
  | none => alistSet m f.id f
  | some existing =>
      if !latTruthy existing.latitude && latTruthy f.latitude then
        alistSet m f.id (objectSpread existing f)
      else m

/-- One step of the de-duplication loop of `buildScopeFacilities`. -/
def dedupStep (bravoExcluded : Bool) (m : List (String × Facility)) (f : Facility) :
    List (String × Facility) :=
  if bravoExcluded && BRAVO_EXCLUSIONS.contains f.id then m
  else dedupCore m f

/-- Embedding of `buildScopeFacilities` from `coverage.ts`. -/
def buildScopeFacilities (scope : Scope)
    (publicFacilities ourFacilities : List Facility) (bravoExcluded : Bool) :
    List Facility :=
  (((scopeCombined scope publicFacilities ourFacilities).foldl
      (dedupStep bravoExcluded) []).map (·.2))

structure Coordinate where
  latitude : ℚ
  longitude : ℚ
  deriving Repr, DecidableEq

/-- Skip `\s*`. -/
def skipWs (l : List Char) : List Char := l.dropWhile wsChar

/-- Skip `°?` (the following regex elements can never match `°`,
so consuming an available degree sign is exact). -/
def skipDegree : List Char → List Char
  | '°' :: r => r
  | r => r

/-- Match the degree-hemisphere endpoint format
`/^(\d{1,2}(?:\.\d+)?)\s*°?\s*([NS])\s*[\x2f,]\s*(\d{1,3}(?:\.\d+)?)\s*°?\s*([EW])$/i`
and return the signed coordinate (south/west negative). -/
def hemiEndpoint (l : List Char) : Option Coordinate := do
  let ((lip, lfp), r1) ← takeDecimal 1 2 l
  let r2 := skipWs (skipDegree (skipWs r1))
  let (latSouth, r3) ← match r2 with
    | 'N' :: r => some (false, r)
    | 'n' :: r => some (false, r)
    | 'S' :: r => some (true, r)
    | 's' :: r => some (true, r)
    | _ => none
  let r4 := skipWs r3
  let r5 ← match r4 with
    | '/' :: r => some r
    | ',' :: r => some r
    | _ => none
  let r6 := skipWs r5
  let ((oip, ofp), r7) ← takeDecimal 1 3 r6
  let r8 := skipWs (skipDegree (skipWs r7))
  let (lonWest, r9) ← match r8 with
    | 'E' :: r => some (false, r)
    | 'e' :: r => some (false, r)
    | 'W' :: r => some (true, r)
    | 'w' :: r => some (true, r)
    | _ => none
  if r9 = [] then
    let latMag := ratOfParts lip lfp
    let lonMag := ratOfParts oip ofp
    let latitude := if latSouth then -latMag else latMag
    let longitude := if lonWest then -lonMag else lonMag
    if 90 < |latitude| || 180 < |longitude| then none
    else some { latitude, longitude }
  else none

/-- Match the bare signed-decimal-pair endpoint format
`/^([-+]?\d{1,2}(?:\.\d+)?)\s*[,\x2f]\s*([-+]?\d{1,3}(?:\.\d+)?)$/`. -/
def signedEndpoint (l : List Char) : Option Coordinate := do
  let (latNeg, l1) ← match l with
    | '-' :: r => some (true, r)
    | '+' :: r => some (false, r)
    | r => some (false, r)
  let ((lip, lfp), r1) ← takeDecimal 1 2 l1
  let r2 := skipWs r1
  let r3 ← match r2 with
    | ',' :: r => some r
    | '/' :: r => some r
    | _ => none
  let r4 := skipWs r3
  let (lonNeg, r5) ← match r4 with
    | '-' :: r => some (true, r)
    | '+' :: r => some (false, r)
    | r => some (false, r)
  let ((oip, ofp), r6) ← takeDecimal 1 3 r5
  if r6 = [] then
    let latitude := if latNeg then -(ratOfParts lip lfp) else ratOfParts lip lfp
    let longitude := if lonNeg then -(ratOfParts oip ofp) else ratOfParts oip ofp
    if 90 < |latitude| || 180 < |longitude| then none
    else some { latitude, longitude }
  else none

/-- Embedding of `parseCoordinateEndpoint` from `coverage.ts`: try the
degree-hemisphere format, then the signed-pair format. -/
def parseCoordinateEndpoint (value : String) : Option Coordinate :=
  let trimmed := dropEdges wsChar value.data
  if trimmed = [] then none
  else
    match hemiEndpoint trimmed with
    | some c => some c
    | none => signedEndpoint trimmed

/-- A great-circle distance function in nautical miles.  The source's
`distanceNm` is the haversine formula over IEEE-754 doubles
(`Math.sin`/`Math.cos`/`Math.atan2`/`Math.sqrt`, earth radius
3440.065 nm); its transcendental floating-point arithmetic is kept
abstract here and every result below that touches it holds for an
arbitrary metric. -/
abbrev DistanceFn := Coordinate → Coordinate → ℚ

abbrev MatchMap := List (String × FacilityMatch)

def bumpCounts (c : MatchCounts) : SourceType → MatchCounts
  | .endpoint_from => { c with endpoint_from := c.endpoint_from + 1 }
  | .endpoint_to => { c with endpoint_to := c.endpoint_to + 1 }
  | .notes_match => { c with notes_match := c.notes_match + 1 }

/-- The `addMatch` closure of `computeFacilityMatches`. -/
def addMatch (facilityIds : List String) (m : MatchMap) (id : String)
    (src : SourceType) : MatchMap :=
  if facilityIds.contains id then
    let entry := (alistGet m id).getD { id := id, counts := {} }
    alistSet m id { entry with counts := bumpCounts entry.counts src }
  else m

/-- The coordinate of a candidate facility (candidates always carry
coordinates; the source uses non-null assertions `latitude!`). -/
def candCoord (f : Facility) : Coordinate :=
  { latitude := f.latitude.getD 0, longitude := f.longitude.getD 0 }

/-- The nearest-candidate scan of `addCoordinateEndpointMatch`:
`nearestId`/`nearestDistance` accumulator (starting `null`/`Infinity`),
strict improvement required, so the first-encountered facility wins
ties. -/
def nearestCandidate (dist : DistanceFn) (coord : Coordinate)
    (cands : List Facility) : Option (String × ℚ) :=
  cands.foldl (fun acc f =>
    match acc with
    | none => some (f.id, dist coord (candCoord f))
    | some (nid, nd) =>
        if dist coord (candCoord f) < nd then some (f.id, dist coord (candCoord f))
        else some (nid, nd)) none

/-- The `addCoordinateEndpointMatch` closure of `computeFacilityMatches`:
parse the raw endpoint as a coordinate, scan the candidates for the
nearest one, and credit it when within 10 nm. -/
def addCoordinateEndpointMatch (dist : DistanceFn) (cands : List Facility)
    (facilityIds : List String) (m : MatchMap) (value : String)
    (src : SourceType) : MatchMap :=
  if cands.isEmpty then m
  else
    match parseCoordinateEndpoint value with
    | none => m
    | some coord =>
        match nearestCandidate dist coord cands with
        | some (nid, nd) =>
            if nid ≠ "" && nd ≤ 10 then addMatch facilityIds m nid src else m
        | none => m

/-- Notes-token processing: coordinate-like tokens are skipped, others
are normalized and credited as `notes_match` when known. -/
def processTextToken (facilityIds : List String) (m : MatchMap) (token : String) :
    MatchMap :=
  if isCoordinateToken token then m
  else if normalizeFacilityId token ≠ "" then
    addMatch facilityIds m (normalizeFacilityId token) .notes_match
  else m

/-- The endpoint-handling block of `computeFacilityMatches`, identical
for `from`/`endpoint_from` and `to`/`endpoint_to`: credit the normalized
endpoint when truthy, and when normalization did not produce a member of
the facility set, fall back to coordinate-endpoint matching on the raw
string. -/
def endpointStep (dist : DistanceFn) (cands : List Facility)
    (facilityIds : List String) (m : MatchMap) (raw : String)
    (src : SourceType) : MatchMap :=
  if !(normalizeFacilityId raw ≠ "" && facilityIds.contains (normalizeFacilityId raw)) then
    addCoordinateEndpointMatch dist cands facilityIds
      (if normalizeFacilityId raw ≠ "" then
        addMatch facilityIds m (normalizeFacilityId raw) src
      else m) raw src
  else
    (if normalizeFacilityId raw ≠ "" then
      addMatch facilityIds m (normalizeFacilityId raw) src
    else m)

/-- The per-flight body of the loop of `computeFacilityMatches`. -/
def processFlight (dist : DistanceFn) (cands : List Facility)
    (facilityIds : List String) (m : MatchMap) (flight : FlightRow) : MatchMap :=
  flight.textFields.foldl
    (fun acc field => (tokenizeText field).foldl (processTextToken facilityIds) acc)
    (endpointStep dist cands facilityIds
      (endpointStep dist cands facilityIds m flight.fromAp .endpoint_from)
      flight.toAp .endpoint_to)

/-- Embedding of `computeFacilityMatches` from `coverage.ts` (the optional
`facilitiesById` map enables the coordinate-endpoint fallback). -/
def computeFacilityMatches (dist : DistanceFn) (flights : List FlightRow)
    (facilityIds : List String)
    (facilitiesById : Option (List (String × Facility))) : MatchMap :=
  let cands :=
    match facilitiesById with
    | none => []
    | some fm =>
        (fm.map (·.2)).filter (fun f =>
          facilityIds.contains f.id && f.latitude.isSome && f.longitude.isSome)
  flights.foldl (processFlight dist cands facilityIds) []

/-! ## Coverage aggregation (`src/components/LandingsApp.tsx`)

The `useMemo` chain `scopeFilteredFacilities` → `visitedFacilities` →
`coverage` (lines 650-681) and `coverageByState` (lines 683-692),
extracted as pure functions of their inputs. -/

inductive MapFilter where
  | all | visited | unvisited
  deriving Repr, DecidableEq

structure CoverageStat where
  total : Nat
  visited : Nat
  ratio : ℚ
  deriving Repr, DecidableEq

/-- The `coverage` memo: `total` counts `selectedFacilities`, but
`visited` counts `visitedFacilities`, which is derived from
`scopeFilteredFacilities` and therefore depends on the map filter. -/
def computeCoverage (selectedFacilities : List Facility)
    (visitedSet : List String) (mapFilter : MapFilter) : CoverageStat :=
  let scopeFilteredFacilities : List Facility :=
    match mapFilter with
    | .visited => selectedFacilities.filter (fun f => visitedSet.contains f.id)
    | .unvisited => selectedFacilities.filter (fun f => !visitedSet.contains f.id)
    | .all => selectedFacilities
  let visitedFacilities :=
    scopeFilteredFacilities.filter (fun f => visitedSet.contains f.id)
  let total := selectedFacilities.length
  let visited := visitedFacilities.length
  { total := total
    visited := visited
    ratio := if total > 0 then (visited : ℚ) / (total : ℚ) else 0 }

/-- The `coverageByState` memo: per-state totals from the unfiltered
state buckets and the visited-id set. -/
def computeCoverageByState (facilitiesByState : List (String × List Facility))
    (visitedSet : List String) : List (String × CoverageStat) :=
  facilitiesByState.map (fun p =>
    let total := p.2.length
    let visited := (p.2.filter (fun f => visitedSet.contains f.id)).length
    (p.1, { total := total
            visited := visited
            ratio := if total > 0 then (visited : ℚ) / (total : ℚ) else 0 }))

/-! ## C1: the notes-matching unit test vector -/

/-- The flight list of the notes-matching unit test
(`src/lib/__tests__/datasets.test.ts`). -/
def notesTestFlights : List FlightRow :=
  [{ date := "2024-01-01", fromAp := "L54", toAp := "L35",
     textFields := ["Touched KMOD then 37.5N/122.2W"] }]

/-- The facility id set of the notes-matching unit test. -/
def notesTestIds : List String := ["L54", "L35", "MOD"]

/-! ## C10: the entry invariant of `computeFacilityMatches` -/

/-- Invariant of the match map under construction: every entry is keyed
by a supplied facility id, carries its key in its `id` field, and has
been bumped at least once. -/
def MatchInv (facilityIds : List String) (m : MatchMap) : Prop :=
  ∀ p ∈ m, facilityIds.contains p.1 = true ∧ p.2.id = p.1 ∧
    1 ≤ p.2.counts.endpoint_from + p.2.counts.endpoint_to + p.2.counts.notes_match

/-- A concrete distance function for witnesses; the scenarios below never
evaluate it. -/
def zeroDist : DistanceFn := fun _ _ => 0

/-! ## C9: the coverage ratio and the map filter -/

/-- A one-facility scope for the coverage divergence. -/
def facAlpha : Facility := { id := "AAA", name := "Alpha", source := .publicSrc }

/-- A Papa result with no parse errors and no flights table. -/
def prNoTable : PapaResult := { data := [["x", "y"]], errors := [] }

/-! ## C8: field parsing in `parseFacilitiesMaster` -/

/-- The recognized surface-category strings. -/
def surfaceLabel : SurfaceCategory → String
  | .paved => "paved"
  | .unpaved => "unpaved"
  | .water => "water"
  | .unknown => "unknown"

/-- The claim's facility-catalog example row. -/
def rowKABC : CsvRow :=
  [("id", "KABC"), ("state", "CA"), ("name", "Test Field"), ("towered", "yes"),
   ("longest_runway_ft", "5200"), ("surface_category", "paved")]

/-- A concrete row exercising case-insensitive towered/surface parsing
(no numeric fields, so the record is decidable). -/
def rowKXYZ : CsvRow :=
  [("id", "KXYZ"), ("towered", "No"), ("surface_category", "Water")]

def facKXYZ : Facility :=
  { id := "XYZ", state := some "", name := "XYZ", towered := some false,
    surfaceCategory := some .water, source := .publicSrc }

/-! ## C7: de-duplication in `buildScopeFacilities` -/

/-- Claim-side characterization of the entry that de-duplication keeps
for one id, given the ordered duplicate occurrences: the first
occurrence, unless it has falsy latitude, in which case the first later
occurrence with truthy latitude (if any) replaces it wholesale. -/
def dedupEntrySpec (occs : List Facility) : Option Facility :=
  match occs with
  | [] => none
  | f :: rest =>
      if latTruthy f.latitude then some f
      else
        match rest.find? (fun g => latTruthy g.latitude) with
        | some g => some g
        | none => some f

def facFirst : Facility := { id := "AAA", name := "First", source := .publicSrc }

def facSecond : Facility :=
  { id := "AAA", name := "Second", latitude := some 1, source := .publicSrc }

/-! ## C4: the data-row scan of `parseForeFlightCsv` -/

/-- The claim-side stop condition at scan position `i` (relative to the
first data row), with `run` crediting blank rows immediately before the
scan start: a section-header row, or the third row of a run of three
consecutive fully-blank rows. -/
def stopCondR (run : Nat) (rows : List (List String)) : Nat → Bool
  | 0 =>
      isSectionHeader (rows.getD 0 []) ||
      (isRowEmpty (rows.getD 0 []) && decide (2 ≤ run))
  | 1 =>
      isSectionHeader (rows.getD 1 []) ||
      (isRowEmpty (rows.getD 1 []) && isRowEmpty (rows.getD 0 []) && decide (1 ≤ run))
  | (i + 2) =>
      isSectionHeader (rows.getD (i + 2) []) ||
      (isRowEmpty (rows.getD (i + 2) []) && isRowEmpty (rows.getD (i + 1) []) &&
       isRowEmpty (rows.getD i []))

/-- The number of rows the scan loop consumes before stopping (the whole
list when no stop condition fires). -/
def firstStop : List (List String) → Nat → Nat
  | [], _ => 0
  | row :: rest, run =>
      if isSectionHeader row then 0
      else if isRowEmpty row then
        if run + 1 ≥ 3 then 0 else firstStop rest (run + 1) + 1
      else firstStop rest 0 + 1

/-- A concrete logbook for the scan-characterization witness: header at
index 1, two data rows separated by one blank row, then a terminator. -/
def prScan : PapaResult :=
  { data := [["Flights Table"],
             ["Date", "From", "To", "Remarks"],
             ["2024-01-01", "KSFO", "KLAX", "note"],
             [""],
             ["2024-01-02", "KLAX", "KSQL", ""],
             ["Totals Table"],
             ["ignored"]],
    errors := [] }


/-! ## Theorems -/

/-! ## Character and edge-stripping lemmas -/

theorem toNat_mkChar (n : Nat) (h1 : n < 4294967296) (h2 : (⟨⟨n, h1⟩⟩ : UInt32).isValidChar) :
    (⟨⟨⟨n, h1⟩⟩, h2⟩ : Char).toNat = n := rfl

theorem upChar_of_keep (c : Char) (h : keepChar c = true) : upChar c = c := by
  simp only [keepChar, Bool.or_eq_true, Bool.and_eq_true, decide_eq_true_eq] at h
  unfold upChar
  rw [dif_neg]
  omega

theorem upChar_toNat (c : Char) :
    (upChar c).toNat = if 97 ≤ c.toNat ∧ c.toNat ≤ 122 then c.toNat - 32 else c.toNat := by
  unfold upChar
  split
  · rfl
  · rfl

theorem upChar_idem (c : Char) : upChar (upChar c) = upChar c := by
  have h2 := upChar_toNat c
  conv_lhs => rw [upChar]
  rw [dif_neg]
  split at h2 <;> omega

theorem keep_not_ws (c : Char) (h : keepChar c = true) : wsChar c = false := by
  simp only [keepChar, Bool.or_eq_true, Bool.and_eq_true, decide_eq_true_eq] at h
  simp only [wsChar, Bool.or_eq_false_iff, decide_eq_false_iff_not]
  omega

theorem mem_dropWhile {p : Char → Bool} {c : Char} :
    ∀ {l : List Char}, c ∈ l.dropWhile p → c ∈ l
  | [], h => h
  | a :: l, h => by
      rw [List.dropWhile] at h
      split at h
      · exact List.mem_cons_of_mem a (mem_dropWhile h)
      · exact h

theorem mem_dropEdges {p : Char → Bool} {c : Char} {l : List Char}
    (h : c ∈ dropEdges p l) : c ∈ l := by
  unfold dropEdges at h
  rw [List.mem_reverse] at h
  have h2 := mem_dropWhile h
  rw [List.mem_reverse] at h2
  exact mem_dropWhile h2

theorem dropWhile_head_false {p : Char → Bool} :
    ∀ {l : List Char} {c : Char}, (l.dropWhile p).head? = some c → p c = false
  | [], c, h => by simp [List.dropWhile] at h
  | a :: l, c, h => by
      rw [List.dropWhile] at h
      split at h
      · exact dropWhile_head_false h
      · rw [List.head?_cons, Option.some_inj] at h
        subst h
        simp_all

theorem dropWhile_eq_self_of_head {p : Char → Bool} {l : List Char}
    (h : ∀ c, l.head? = some c → p c = false) : l.dropWhile p = l := by
  cases l with
  | nil => rfl
  | cons a l =>
      rw [List.dropWhile]
      rw [h a rfl]

theorem head?_mem {c : Char} : ∀ {l : List Char}, l.head? = some c → c ∈ l
  | [], h => by simp at h
  | a :: l, h => by
      rw [List.head?_cons, Option.some_inj] at h
      exact h ▸ List.mem_cons_self a l

theorem dropEdges_eq_self {p : Char → Bool} {l : List Char}
    (h1 : ∀ c, l.head? = some c → p c = false)
    (h2 : ∀ c, l.getLast? = some c → p c = false) : dropEdges p l = l := by
  unfold dropEdges
  rw [dropWhile_eq_self_of_head h1]
  rw [dropWhile_eq_self_of_head (fun c hc => h2 c (by rwa [List.head?_reverse] at hc))]
  exact List.reverse_reverse l

theorem map_eq_self_of_fixed {f : Char → Char} :
    ∀ {l : List Char}, (∀ c ∈ l, f c = c) → l.map f = l
  | [], _ => rfl
  | a :: l, h => by
      rw [List.map_cons, h a (List.mem_cons_self a l),
        map_eq_self_of_fixed (fun c hc => h c (List.mem_cons_of_mem a hc))]

theorem dropWhile_suffix_exists (p : Char → Bool) :
    ∀ l : List Char, ∃ t, l = t ++ l.dropWhile p
  | [] => ⟨[], rfl⟩
  | a :: l => by
      rw [List.dropWhile]
      split
      · obtain ⟨t, ht⟩ := dropWhile_suffix_exists p l
        exact ⟨a :: t, by rw [List.cons_append]; exact congrArg (a :: ·) ht⟩
      · exact ⟨[], rfl⟩

theorem dropEdges_head_false {p : Char → Bool} {l : List Char} {c : Char}
    (h : (dropEdges p l).head? = some c) : p c = false := by
  unfold dropEdges at h
  rw [List.head?_reverse] at h
  set X := (l.dropWhile p).reverse.dropWhile p with hX
  obtain ⟨t, ht⟩ := dropWhile_suffix_exists p (l.dropWhile p).reverse
  rw [← hX] at ht
  have hXne : X ≠ [] := by
    intro hemp
    rw [hemp] at h
    simp at h
  have hlast : ((l.dropWhile p).reverse).getLast? = some c := by
    rw [ht, List.getLast?_append_of_ne_nil t hXne]
    exact h
  rw [List.getLast?_reverse] at hlast
  exact dropWhile_head_false hlast

theorem dropEdges_last_false {p : Char → Bool} {l : List Char} {c : Char}
    (h : (dropEdges p l).getLast? = some c) : p c = false := by
  unfold dropEdges at h
  rw [List.getLast?_reverse] at h
  exact dropWhile_head_false h

/-! ## Stability of `normalizeFacilityId` under re-normalization -/

theorem getLast?_mem {c : Char} {l : List Char} (h : l.getLast? = some c) : c ∈ l := by
  rw [← List.head?_reverse] at h
  exact List.mem_reverse.mp (head?_mem h)

theorem cleanedToken_mem_fixed {s : String} {c : Char} (h : c ∈ cleanedToken s) :
    upChar c = c := by
  unfold cleanedToken at h
  obtain ⟨d, _, hd⟩ := List.mem_map.mp (mem_dropEdges h)
  rw [← hd]
  exact upChar_idem d

theorem cleanedToken_head_keep {s : String} {c : Char}
    (h : (cleanedToken s).head? = some c) : keepChar c = true := by
  have h2 := dropEdges_head_false (p := fun c => !keepChar c) h
  simpa using h2

theorem cleanedToken_last_keep {s : String} {c : Char}
    (h : (cleanedToken s).getLast? = some c) : keepChar c = true := by
  have h2 := dropEdges_last_false (p := fun c => !keepChar c) h
  simpa using h2

/-- Re-normalizing a string whose characters are uppercase-stable with
alphanumeric edge characters only re-runs the `K`-strip test. -/
theorem normalize_mk_stable (l : List Char) (hne : l ≠ [])
    (hfix : ∀ c ∈ l, upChar c = c)
    (hhead : ∀ c, l.head? = some c → keepChar c = true)
    (hlast : ∀ c, l.getLast? = some c → keepChar c = true) :
    normalizeFacilityId (String.mk l) =
      if kPattern l then String.mk (l.drop 1) else String.mk l := by
  have hdata : (String.mk l).data = l := rfl
  have e1 : dropEdges wsChar l = l :=
    dropEdges_eq_self (fun c hc => keep_not_ws c (hhead c hc))
      (fun c hc => keep_not_ws c (hlast c hc))
  have e2 : l.map upChar = l := map_eq_self_of_fixed hfix
  have e3 : dropEdges (fun c => !keepChar c) l = l :=
    dropEdges_eq_self (fun c hc => by rw [hhead c hc]; rfl)
      (fun c hc => by rw [hlast c hc]; rfl)
  unfold normalizeFacilityId cleanedToken
  rw [hdata, e1, e2, e3, if_neg hne]

theorem kPattern_iff_of_keep (l : List Char) (hkeep : ∀ c ∈ l, keepChar c = true) :
    kPattern l = true ↔ (l.head? = some 'K' ∧ (l.length = 4 ∨ l.length = 5)) := by
  cases l with
  | nil => simp [kPattern]
  | cons a rest =>
      have hall : rest.all keepChar = true :=
        List.all_eq_true.mpr (fun c hc => hkeep c (List.mem_cons_of_mem a hc))
      simp only [kPattern, hall, Bool.and_true, Bool.and_eq_true, decide_eq_true_eq,
        Bool.or_eq_true, List.head?_cons, Option.some_inj, List.length_cons]
      exact and_congr_right fun _ => by omega

/-- C5 (amended): `normalizeFacilityId` is idempotent on every input
whose normalized result does not itself match the `K` + 3-4 alphanumeric
pattern (re-normalizing such a result strips a second `K`). -/
theorem normalizeFacilityId_idem_unless_kPattern (s : String)
    (h : kPattern (normalizeFacilityId s).data = false) :
    normalizeFacilityId (normalizeFacilityId s) = normalizeFacilityId s := by
  by_cases hc : cleanedToken s = []
  · have hr : normalizeFacilityId s = "" := by
      unfold normalizeFacilityId
      rw [hc]
      rfl
    rw [hr]
    rfl
  · by_cases hk : kPattern (cleanedToken s) = true
    · have hr : normalizeFacilityId s = String.mk ((cleanedToken s).drop 1) := by
        unfold normalizeFacilityId
        rw [if_neg hc, if_pos hk]
      obtain ⟨a, rest, hcr⟩ : ∃ a rest, cleanedToken s = a :: rest := by
        cases hcl : cleanedToken s with
        | nil => exact absurd hcl hc
        | cons a rest => exact ⟨a, rest, rfl⟩
      have hkr := hk
      rw [hcr] at hkr
      simp only [kPattern, Bool.and_eq_true, decide_eq_true_eq, Bool.or_eq_true,
        List.all_eq_true] at hkr
      obtain ⟨⟨haK, hlen⟩, hall⟩ := hkr
      have hdrop : (cleanedToken s).drop 1 = rest := by rw [hcr]; rfl
      have hrestne : rest ≠ [] := by
        intro hemp
        rw [hemp] at hlen
        simp at hlen
      have hrkeep : ∀ c ∈ rest, keepChar c = true := fun c hc2 => hall c hc2
      rw [hr, hdrop]
      rw [normalize_mk_stable rest hrestne
        (fun c hc2 => upChar_of_keep c (hrkeep c hc2))
        (fun c hc2 => hrkeep c (head?_mem hc2))
        (fun c hc2 => hrkeep c (getLast?_mem hc2))]
      have hdata : (normalizeFacilityId s).data = rest := by rw [hr, hdrop]
      rw [hdata] at h
      rw [if_neg (by simp [h])]
    · have hr : normalizeFacilityId s = String.mk (cleanedToken s) := by
        unfold normalizeFacilityId
        rw [if_neg hc, if_neg hk]
      rw [hr]
      rw [normalize_mk_stable (cleanedToken s) hc
        (fun c hc2 => cleanedToken_mem_fixed hc2)
        (fun c hc2 => cleanedToken_head_keep hc2)
        (fun c hc2 => cleanedToken_last_keep hc2)]
      rw [if_neg hk]

/-- C5 witness: the amended idempotence theorem applied at `"(lax)"`. -/
theorem normalizeFacilityId_idem_witness :
    normalizeFacilityId (normalizeFacilityId "(lax)") = normalizeFacilityId "(lax)" :=
  normalizeFacilityId_idem_unless_kPattern "(lax)" (by decide)

/-- C5 counterexample: `normalizeFacilityId` is not idempotent on
`"KKABC"`: one pass yields `"KABC"`, a second pass strips again to
`"ABC"`. -/
theorem normalizeFacilityId_not_idempotent_on_KKABC :
    normalizeFacilityId (normalizeFacilityId "KKABC") ≠ normalizeFacilityId "KKABC" := by
  decide

/-- C6 (amended): on a non-empty all-uppercase-alphanumeric token, the
`K`-strip of `normalizeFacilityId` fires exactly when the token is `K`
followed by 3 or 4 alphanumeric characters (total length 4 or 5); for
any other length the token is left unmodified. -/
theorem normalizeFacilityId_kStrip_boundary (s : String) (hne : s.data ≠ [])
    (hkeep : ∀ c ∈ s.data, keepChar c = true) :
    normalizeFacilityId s =
      if s.data.head? = some 'K' ∧ (s.data.length = 4 ∨ s.data.length = 5)
      then String.mk (s.data.drop 1) else s := by
  have hs : String.mk s.data = s := rfl
  have h1 := normalize_mk_stable s.data hne
    (fun c hc => upChar_of_keep c (hkeep c hc))
    (fun c hc => hkeep c (head?_mem hc))
    (fun c hc => hkeep c (getLast?_mem hc))
  rw [hs] at h1
  rw [h1]
  by_cases hkp : kPattern s.data = true
  · rw [if_pos hkp, if_pos ((kPattern_iff_of_keep s.data hkeep).mp hkp)]
  · rw [if_neg hkp, if_neg (fun hcl => hkp ((kPattern_iff_of_keep s.data hkeep).mpr hcl))]

/-- C6 witness: the boundary theorem applied at `"KABCDE"` (5 body
characters after the `K`): left unmodified. -/
theorem normalizeFacilityId_kStrip_boundary_witness :
    normalizeFacilityId "KABCDE" = "KABCDE" := by
  have h := normalizeFacilityId_kStrip_boundary "KABCDE" (by decide) (by decide)
  rw [if_neg (by decide)] at h
  exact h

/-- C6 counterexample: `"KABCD"` has 4 body characters after the `K`,
which is inside the 3-4 range, so the `K` IS stripped: the claim's
"left unmodified" example is wrong on the code. -/
theorem normalizeFacilityId_strips_KABCD :
    normalizeFacilityId "KABCD" = "ABCD" ∧ normalizeFacilityId "KABCD" ≠ "KABCD" := by
  constructor
  · decide
  · decide

/-- C1: on the test flight `L54 → L35` with note
`"Touched KMOD then 37.5N/122.2W"` and facility set `{L54, L35, MOD}`,
`computeFacilityMatches` credits `MOD` with one `notes_match` (from the
token `KMOD`), `L54` with one `endpoint_from`, `L35` with one
`endpoint_to`, and produces no entry for any coordinate-like token such
as `"122.2W"` (coordinate-like tokens are skipped before lookup).  The
distance function is irrelevant here (no facility map is supplied), so
the result holds for every `dist`. -/
theorem computeFacilityMatches_notes_test (dist : DistanceFn) :
    ((alistGet (computeFacilityMatches dist notesTestFlights notesTestIds none) "MOD").map
        (fun e => e.counts.notes_match) = some 1) ∧
    ((alistGet (computeFacilityMatches dist notesTestFlights notesTestIds none) "L54").map
        (fun e => e.counts.endpoint_from) = some 1) ∧
    ((alistGet (computeFacilityMatches dist notesTestFlights notesTestIds none) "L35").map
        (fun e => e.counts.endpoint_to) = some 1) ∧
    (alistGet (computeFacilityMatches dist notesTestFlights notesTestIds none) "122.2W"
        = none) ∧
    (∀ p ∈ computeFacilityMatches dist notesTestFlights notesTestIds none,
        isCoordinateToken p.1 = false) := by
  have hm : computeFacilityMatches dist notesTestFlights notesTestIds none =
      [("L54", ⟨"L54", ⟨1, 0, 0⟩⟩), ("L35", ⟨"L35", ⟨0, 1, 0⟩⟩),
       ("MOD", ⟨"MOD", ⟨0, 0, 1⟩⟩)] := rfl
  rw [hm]
  refine ⟨by decide, by decide, by decide, by decide, ?_⟩
  intro p hp
  simp only [List.mem_cons, List.not_mem_nil, or_false] at hp
  rcases hp with h | h | h <;> subst h <;> decide

theorem alistGet_mem {α : Type} {m : List (String × α)} {k : String} {v : α}
    (h : alistGet m k = some v) : (k, v) ∈ m := by
  unfold alistGet at h
  cases hf : m.find? (fun p => p.1 = k) with
  | none => simp [hf] at h
  | some p =>
      obtain ⟨p1, p2⟩ := p
      have hmem := List.mem_of_find?_eq_some hf
      have hpred := List.find?_some hf
      rw [hf] at h
      simp at h hpred
      rw [← hpred, ← h]
      exact hmem

theorem alistSet_preserve {α : Type} (P : String × α → Prop) :
    ∀ (m : List (String × α)) (k : String) (v : α),
      (∀ p ∈ m, P p) → P (k, v) → ∀ p ∈ alistSet m k v, P p
  | [], k, v, _, hkv, p, hp => by
      simp only [alistSet, List.mem_singleton] at hp
      rw [hp]; exact hkv
  | (k', v') :: rest, k, v, hm, hkv, p, hp => by
      rw [alistSet] at hp
      split at hp
      · rcases List.mem_cons.mp hp with h1 | h1
        · rw [h1]; exact hkv
        · exact hm p (List.mem_cons_of_mem _ h1)
      · rcases List.mem_cons.mp hp with h1 | h1
        · rw [h1]; exact hm (k', v') (List.mem_cons_self _ _)
        · exact alistSet_preserve P rest k v
            (fun q hq => hm q (List.mem_cons_of_mem _ hq)) hkv p h1

theorem bumpCounts_sum (c : MatchCounts) (src : SourceType) :
    1 ≤ (bumpCounts c src).endpoint_from + (bumpCounts c src).endpoint_to +
      (bumpCounts c src).notes_match := by
  cases src <;> simp [bumpCounts] <;> omega

theorem addMatch_preserve {ids : List String} {m : MatchMap} (id : String)
    (src : SourceType) (h : MatchInv ids m) : MatchInv ids (addMatch ids m id src) := by
  unfold addMatch
  split
  · intro p hp
    refine alistSet_preserve _ m id _ h ?_ p hp
    refine ⟨‹_›, ?_, bumpCounts_sum _ _⟩
    cases hg : alistGet m id with
    | none => simp [hg]
    | some e =>
        have h2 := (h _ (alistGet_mem hg)).2.1
        simp only [hg, Option.getD_some]
        exact h2
  · exact h

theorem addCoordinateEndpointMatch_preserve {dist : DistanceFn}
    {cands : List Facility} {ids : List String} {m : MatchMap}
    (value : String) (src : SourceType) (h : MatchInv ids m) :
    MatchInv ids (addCoordinateEndpointMatch dist cands ids m value src) := by
  unfold addCoordinateEndpointMatch
  split
  · exact h
  · split
    · exact h
    · split
      · split
        · exact addMatch_preserve _ _ h
        · exact h
      · exact h

theorem processTextToken_preserve {ids : List String} {m : MatchMap}
    (token : String) (h : MatchInv ids m) :
    MatchInv ids (processTextToken ids m token) := by
  unfold processTextToken
  split
  · exact h
  · split
    · exact addMatch_preserve _ _ h
    · exact h

theorem foldl_preserve {β : Type} (P : MatchMap → Prop)
    (step : MatchMap → β → MatchMap) (hstep : ∀ m b, P m → P (step m b)) :
    ∀ (l : List β) (m : MatchMap), P m → P (l.foldl step m)
  | [], m, hm => hm
  | b :: l, m, hm => by
      rw [List.foldl_cons]
      exact foldl_preserve P step hstep l (step m b) (hstep m b hm)

theorem endpointStep_preserve {dist : DistanceFn} {cands : List Facility}
    {ids : List String} {m : MatchMap} (raw : String) (src : SourceType)
    (h : MatchInv ids m) : MatchInv ids (endpointStep dist cands ids m raw src) := by
  have hbase : MatchInv ids
      (if normalizeFacilityId raw ≠ "" then
        addMatch ids m (normalizeFacilityId raw) src else m) := by
    split
    · exact addMatch_preserve _ _ h
    · exact h
  unfold endpointStep
  split
  · exact addCoordinateEndpointMatch_preserve raw src hbase
  · exact hbase

theorem processFlight_preserve {dist : DistanceFn} {cands : List Facility}
    {ids : List String} {m : MatchMap} (flight : FlightRow)
    (h : MatchInv ids m) : MatchInv ids (processFlight dist cands ids m flight) := by
  unfold processFlight
  exact foldl_preserve (MatchInv ids) _
    (fun m2 field hm2 => foldl_preserve (MatchInv ids) _
      (fun m3 tok hm3 => processTextToken_preserve tok hm3) _ m2 hm2) _ _
    (endpointStep_preserve _ _ (endpointStep_preserve _ _ h))

/-- C10: every entry of the map built by `computeFacilityMatches` is
keyed by a member of the supplied facility id set, repeats that key in
its `id` field, and its three (natural-number, hence non-negative)
counters sum to at least 1 — there is no all-zero entry and no entry for
an id outside the set. -/
theorem computeFacilityMatches_entry_invariant (dist : DistanceFn)
    (flights : List FlightRow) (facilityIds : List String)
    (facilitiesById : Option (List (String × Facility))) (id : String)
    (entry : FacilityMatch)
    (h : alistGet (computeFacilityMatches dist flights facilityIds facilitiesById) id
        = some entry) :
    facilityIds.contains id = true ∧ entry.id = id ∧
      1 ≤ entry.counts.endpoint_from + entry.counts.endpoint_to +
        entry.counts.notes_match := by
  have hinv : MatchInv facilityIds
      (computeFacilityMatches dist flights facilityIds facilitiesById) := by
    unfold computeFacilityMatches
    exact foldl_preserve (MatchInv facilityIds) _
      (fun m f hm => processFlight_preserve f hm) flights []
      (fun p hp => absurd hp (List.not_mem_nil p))
  exact hinv (id, entry) (alistGet_mem h)

/-- C10 witness: the invariant applied to the `MOD` entry of the
notes-matching test vector. -/
theorem computeFacilityMatches_entry_invariant_witness :
    notesTestIds.contains "MOD" = true ∧
      (⟨"MOD", ⟨0, 0, 1⟩⟩ : FacilityMatch).id = "MOD" ∧
      1 ≤ (⟨"MOD", ⟨0, 0, 1⟩⟩ : FacilityMatch).counts.endpoint_from +
        (⟨"MOD", ⟨0, 0, 1⟩⟩ : FacilityMatch).counts.endpoint_to +
        (⟨"MOD", ⟨0, 0, 1⟩⟩ : FacilityMatch).counts.notes_match :=
  computeFacilityMatches_entry_invariant zeroDist notesTestFlights notesTestIds none
    "MOD" ⟨"MOD", ⟨0, 0, 1⟩⟩ (by decide)

/-- C9: with scope `[AAA]`, visited set `{AAA}` and the map filter set to
`unvisited`, the `coverage` memo computes ratio `0` with total `1`,
although the visited facility count of the scope divided by its total
count is `1`: the numerator is taken from the map-filtered facility list
while the denominator is not, so the displayed ratio is not
`visitedCount/totalCount` of the scope.  (The per-state aggregation,
which ignores the map filter, gives `1` as the claim states.) -/
theorem computeCoverage_unvisited_filter_divergence :
    (computeCoverage [facAlpha] ["AAA"] .unvisited).ratio = 0 ∧
    (computeCoverage [facAlpha] ["AAA"] .unvisited).total = 1 ∧
    ((([facAlpha].filter (fun f => (["AAA"].contains f.id))).length : ℚ) /
      (([facAlpha] : List Facility).length : ℚ) = 1) ∧
    (computeCoverageByState [("CA", [facAlpha])] ["AAA"]).map (fun p => p.2.ratio)
      = [1] := by
  refine ⟨?_, by decide, ?_, ?_⟩
  · show (if (1 : Nat) > 0 then ((0 : Nat) : ℚ) / ((1 : Nat) : ℚ) else 0) = 0
    norm_num
  · show ((1 : Nat) : ℚ) / ((1 : Nat) : ℚ) = 1
    norm_num
  · show [if (1 : Nat) > 0 then ((1 : Nat) : ℚ) / ((1 : Nat) : ℚ) else 0] = [1]
    norm_num

/-! ## C3: the error behaviour of `parseForeFlightCsv` -/

theorem jsFindIndex_none_iff {α : Type} (p : α → Bool) :
    ∀ l : List α, jsFindIndex p l = none ↔ ∀ x ∈ l, p x = false
  | [] => by simp [jsFindIndex]
  | a :: l => by
      rw [jsFindIndex]
      split
      · constructor
        · intro h
          exact absurd h (Option.some_ne_none 0)
        · intro hall
          rw [hall a (List.mem_cons_self a l)] at *
          simp_all
      · rw [Option.map_eq_none', jsFindIndex_none_iff p l]
        constructor
        · intro hall x hx
          rcases List.mem_cons.mp hx with h1 | h1
          · subst h1
            simp_all
          · exact hall x h1
        · intro hall x hx
          exact hall x (List.mem_cons_of_mem a hx)

theorem jsFindIndex_some_pred {α : Type} (p : α → Bool) (d : α) :
    ∀ (l : List α) (i : Nat), jsFindIndex p l = some i →
      i < l.length ∧ p (l.getD i d) = true
  | [], i, h => by rw [jsFindIndex] at h; exact Option.noConfusion h
  | a :: l, i, h => by
      rw [jsFindIndex] at h
      split at h
      · rw [Option.some_inj] at h
        subst h
        simp_all
      · cases hf : jsFindIndex p l with
        | none => rw [hf] at h; exact Option.noConfusion h
        | some j =>
            rw [hf] at h
            simp only [Option.map_some', Option.some_inj] at h
            obtain ⟨hlt, hp⟩ := jsFindIndex_some_pred p d l j hf
            subst h
            refine ⟨by simpa using Nat.succ_lt_succ hlt, ?_⟩
            simpa using hp

theorem jsFindIndex_isSome_of_exists {α : Type} (p : α → Bool) :
    ∀ l : List α, (∃ x ∈ l, p x = true) → (jsFindIndex p l).isSome = true
  | [], h => by simp at h
  | a :: l, h => by
      rw [jsFindIndex]
      split
      · rfl
      · obtain ⟨x, hx, hpx⟩ := h
        rcases List.mem_cons.mp hx with h1 | h1
        · subst h1
          simp_all
        · have h2 := jsFindIndex_isSome_of_exists p l ⟨x, h1, hpx⟩
          cases hf : jsFindIndex p l with
          | none => rw [hf] at h2; simp at h2
          | some j => rfl

theorem findColumnIdx_isSome (headers : List String) :
    ∀ aliases : List String,
      aliases.any (fun a => headers.contains a) = true →
      (findColumnIdx headers aliases).isSome = true
  | [], h => by simp at h
  | a :: rest, h => by
      simp only [List.any_cons, Bool.or_eq_true] at h
      rw [findColumnIdx]
      cases hf : jsFindIndex (fun x => x = a) headers with
      | some i => rfl
      | none =>
          rcases h with h1 | h1
          · exfalso
            have hmem : a ∈ headers := by
              rw [← List.elem_iff]
              exact h1
            have h2 := jsFindIndex_isSome_of_exists (fun x => decide (x = a)) headers
              ⟨a, hmem, by simp⟩
            rw [hf] at h2
            simp at h2
          · exact findColumnIdx_isSome headers rest h1

/-- Once a row satisfies the flights-header predicate, all three column
lookups succeed: the defensive re-check of `parseForeFlightCsv` can
never fire. -/
theorem headerRow_columns_resolve {row : List String}
    (h : isFlightsHeaderRow row = true) :
    (findColumnIdx (row.map normalizeHeaderCell) FROM_HEADER_ALIASES).isSome = true ∧
    (findColumnIdx (row.map normalizeHeaderCell) TO_HEADER_ALIASES).isSome = true ∧
    (findColumnIdx (row.map normalizeHeaderCell) DATE_HEADER_ALIASES).isSome = true := by
  unfold isFlightsHeaderRow at h
  simp only [Bool.and_eq_true] at h
  exact ⟨findColumnIdx_isSome _ _ h.1.2, findColumnIdx_isSome _ _ h.2,
    findColumnIdx_isSome _ _ h.1.1⟩

theorem parseForeFlightRows_error_iff (rows : List (List String)) :
    (parseForeFlightRows rows).error = some "No Flights Table found." ↔
      ∀ row ∈ rows, isFlightsHeaderRow row = false := by
  unfold parseForeFlightRows
  split
  · rename_i hidx
    unfold findFlightsHeaderIdx at hidx
    constructor
    · intro _
      exact (jsFindIndex_none_iff isFlightsHeaderRow rows).mp hidx
    · intro _
      rfl
  · rename_i i hidx
    unfold findFlightsHeaderIdx at hidx
    obtain ⟨hlt, hpred⟩ := jsFindIndex_some_pred isFlightsHeaderRow [] rows i hidx
    have hmem : rows.getD i [] ∈ rows := by
      rw [List.getD_eq_getElem rows [] hlt]
      exact List.getElem_mem hlt
    split
    · constructor
      · intro habs
        exact Option.noConfusion habs
      · intro hall
        exfalso
        rw [hall _ hmem] at hpred
        exact Bool.noConfusion hpred
    · rename_i hno
      obtain ⟨hf, ht, hd⟩ := headerRow_columns_resolve hpred
      obtain ⟨fi, hfi⟩ := Option.isSome_iff_exists.mp hf
      obtain ⟨ti, hti⟩ := Option.isSome_iff_exists.mp ht
      obtain ⟨di, hdi⟩ := Option.isSome_iff_exists.mp hd
      exact absurd (hno fi ti di hfi hti hdi) (fun h => h)

theorem parseForeFlightRows_error_flights (rows : List (List String)) (e : String)
    (h : (parseForeFlightRows rows).error = some e) :
    (parseForeFlightRows rows).flights = [] := by
  unfold parseForeFlightRows at h ⊢
  split at h
  · rfl
  · split at h
    · exact Option.noConfusion h
    · rfl

/-- C3 (amended): `parseForeFlightCsv` is a total function of the CSV
parser output.  When the CSV parser reports errors, the first error's
message (or `"CSV parse error"` when it is empty) is surfaced, not
`"No Flights Table found."`.  When it reports none, the error is
`"No Flights Table found."` exactly when no row's normalized header
cells contain an alias for each of date, from and to (once a header row
matches, the column re-check always succeeds).  Every error comes with
an empty flight list. -/
theorem parseForeFlightCsv_error_characterization (pr : PapaResult) :
    (pr.errors = [] →
      ((parseForeFlightCsv pr).error = some "No Flights Table found." ↔
        ∀ row ∈ pr.data.filter (fun r => r.length > 0),
          isFlightsHeaderRow row = false)) ∧
    (∀ e, (parseForeFlightCsv pr).error = some e →
      (parseForeFlightCsv pr).flights = []) ∧
    (∀ msg rest, pr.errors = msg :: rest →
      (parseForeFlightCsv pr).error =
        some (if msg = "" then "CSV parse error" else msg)) := by
  obtain ⟨data, errors⟩ := pr
  cases errors with
  | cons m t =>
      refine ⟨fun hnil => List.noConfusion hnil, fun e _ => rfl, ?_⟩
      intro msg rest hmr
      injection hmr with h1 _
      rw [h1]
      rfl
  | nil =>
      refine ⟨fun _ => ?_, fun e he => ?_, fun msg rest hmr => List.noConfusion hmr⟩
      · exact parseForeFlightRows_error_iff (data.filter (fun r => r.length > 0))
      · exact parseForeFlightRows_error_flights (data.filter (fun r => r.length > 0)) e he

/-- C3 witness: the characterization applied at a concrete error-free
input with no recognizable flights table. -/
theorem parseForeFlightCsv_error_characterization_witness :
    (parseForeFlightCsv prNoTable).error = some "No Flights Table found." ↔
      ∀ row ∈ prNoTable.data.filter (fun r => r.length > 0),
        isFlightsHeaderRow row = false :=
  (parseForeFlightCsv_error_characterization prNoTable).1 rfl

/-- C3 counterexample: a CSV-parser-level error message (an unterminated
quoted field) is surfaced verbatim with an empty flight list, so
`"No Flights Table found."` is not the only error surfaced. -/
theorem parseForeFlightCsv_forwards_papaparse_error :
    (parseForeFlightCsv { data := [], errors := ["Quoted field unterminated"] }).error
      = some "Quoted field unterminated" ∧
    (some "Quoted field unterminated" : Option String)
      ≠ some "No Flights Table found." ∧
    (parseForeFlightCsv { data := [], errors := ["Quoted field unterminated"] }).flights
      = [] := by
  refine ⟨rfl, by decide, rfl⟩

theorem towered_chain_eq_some_true (v : String) :
    ((if v = "yes" || v = "true" then some true
      else if v = "no" || v = "false" then some false else (none : Option Bool))
        = some true) ↔ (v = "yes" ∨ v = "true") := by
  by_cases h1 : v = "yes"
  · subst h1; decide
  · by_cases h2 : v = "true"
    · subst h2; decide
    · by_cases h3 : v = "no"
      · subst h3; decide
      · by_cases h4 : v = "false"
        · subst h4; decide
        · simp [h1, h2, h3, h4]

theorem towered_chain_eq_some_false (v : String) :
    ((if v = "yes" || v = "true" then some true
      else if v = "no" || v = "false" then some false else (none : Option Bool))
        = some false) ↔ (v = "no" ∨ v = "false") := by
  by_cases h1 : v = "yes"
  · subst h1; decide
  · by_cases h2 : v = "true"
    · subst h2; decide
    · by_cases h3 : v = "no"
      · subst h3; decide
      · by_cases h4 : v = "false"
        · subst h4; decide
        · simp [h1, h2, h3, h4]

theorem surface_chain_eq_some (v : String) (cat : SurfaceCategory) :
    ((if v = "paved" then some SurfaceCategory.paved
      else if v = "unpaved" then some SurfaceCategory.unpaved
      else if v = "water" then some SurfaceCategory.water
      else if v = "unknown" then some SurfaceCategory.unknown
      else none) = some cat) ↔ v = surfaceLabel cat := by
  by_cases h1 : v = "paved"
  · subst h1; cases cat <;> decide
  · by_cases h2 : v = "unpaved"
    · subst h2; cases cat <;> decide
    · by_cases h3 : v = "water"
      · subst h3; cases cat <;> decide
      · by_cases h4 : v = "unknown"
        · subst h4; cases cat <;> decide
        · cases cat <;> simp [h1, h2, h3, h4, surfaceLabel]

/-- Evaluates `jsParseFloatFinite "5200" = 5200` (via `norm_num`, since
rational arithmetic does not reduce definitionally). -/
theorem jsParseFloatFinite_5200 : jsParseFloatFinite "5200" = some 5200 := by
  have h1 : jsParseFloatFinite "5200" =
      some (1 * (((5200 : ℕ) : ℚ) + ((0 : ℕ) : ℚ) / (10 : ℚ) ^ (0 : ℕ)) *
        (10 : ℚ) ^ (0 : ℕ)) := rfl
  rw [h1, Option.some_inj]
  norm_num

theorem jsParseFloatFinite_neg100 : jsParseFloatFinite "-100" = some (-100) := by
  have h1 : jsParseFloatFinite "-100" =
      some ((-1) * (((100 : ℕ) : ℚ) + ((0 : ℕ) : ℚ) / (10 : ℚ) ^ (0 : ℕ)) *
        (10 : ℚ) ^ (0 : ℕ)) := rfl
  rw [h1, Option.some_inj]
  norm_num

/-- C8 (amended): for every parsed row, `towered` is a boolean exactly
for (case-insensitive, trimmed) yes/true/no/false, `surfaceCategory` is
set exactly when the trimmed lowercased value is one of the four
recognized labels, and `longestRunwayFt` is the finite `parseFloat`
value (sign unchecked) or `undefined`; the claim's `KABC` example row
parses to id `ABC`, towered `true`, longestRunwayFt `5200`,
surfaceCategory `paved`. -/
theorem parseFacilitiesMaster_field_parsing (row : CsvRow) (f : Facility)
    (h : parseFacilityRow row = [f]) :
    (f.towered = some true ↔
      (toLowerStr (jsTrim (firstTruthy row ["towered", "TOWERED"])) = "yes" ∨
       toLowerStr (jsTrim (firstTruthy row ["towered", "TOWERED"])) = "true")) ∧
    (f.towered = some false ↔
      (toLowerStr (jsTrim (firstTruthy row ["towered", "TOWERED"])) = "no" ∨
       toLowerStr (jsTrim (firstTruthy row ["towered", "TOWERED"])) = "false")) ∧
    (∀ cat, f.surfaceCategory = some cat ↔
      toLowerStr (jsTrim (firstTruthy row ["surface_category", "SURFACE_CATEGORY"]))
        = surfaceLabel cat) ∧
    (f.longestRunwayFt =
      jsParseFloatFinite (firstTruthy row ["longest_runway_ft", "LONGEST_RUNWAY_FT"])) ∧
    ((parseFacilitiesMaster [rowKABC]).map
        (fun g => (g.id, g.towered, g.longestRunwayFt, g.surfaceCategory))
      = [("ABC", some true, some 5200, some SurfaceCategory.paved)]) := by
  have hex : (parseFacilitiesMaster [rowKABC]).map
      (fun g => (g.id, g.towered, g.longestRunwayFt, g.surfaceCategory))
      = [("ABC", some true, jsParseFloatFinite "5200", some SurfaceCategory.paved)] := rfl
  unfold parseFacilityRow at h
  split at h
  · exact List.noConfusion h
  · injection h with h1 _
    subst h1
    refine ⟨towered_chain_eq_some_true _, towered_chain_eq_some_false _,
      fun cat => surface_chain_eq_some _ cat, rfl, ?_⟩
    rw [hex, jsParseFloatFinite_5200]

/-- C8 witness: the field-parsing theorem applied at the `KXYZ` row. -/
theorem parseFacilitiesMaster_field_parsing_witness :
    (facKXYZ.towered = some true ↔
      (toLowerStr (jsTrim (firstTruthy rowKXYZ ["towered", "TOWERED"])) = "yes" ∨
       toLowerStr (jsTrim (firstTruthy rowKXYZ ["towered", "TOWERED"])) = "true")) ∧
    (facKXYZ.towered = some false ↔
      (toLowerStr (jsTrim (firstTruthy rowKXYZ ["towered", "TOWERED"])) = "no" ∨
       toLowerStr (jsTrim (firstTruthy rowKXYZ ["towered", "TOWERED"])) = "false")) ∧
    (∀ cat, facKXYZ.surfaceCategory = some cat ↔
      toLowerStr (jsTrim (firstTruthy rowKXYZ ["surface_category", "SURFACE_CATEGORY"]))
        = surfaceLabel cat) ∧
    (facKXYZ.longestRunwayFt =
      jsParseFloatFinite (firstTruthy rowKXYZ ["longest_runway_ft", "LONGEST_RUNWAY_FT"])) ∧
    ((parseFacilitiesMaster [rowKABC]).map
        (fun g => (g.id, g.towered, g.longestRunwayFt, g.surfaceCategory))
      = [("ABC", some true, some 5200, some SurfaceCategory.paved)]) :=
  parseFacilitiesMaster_field_parsing rowKXYZ facKXYZ (by decide)

/-- C8 counterexample: a row whose `longest_runway_ft` is `"-100"` parses
to a negative `longestRunwayFt`, refuting the "non-negative number or
undefined" conjunct. -/
theorem parseFacilitiesMaster_negative_runway :
    (parseFacilitiesMaster [[("id", "KABC"), ("longest_runway_ft", "-100")]]).map
        (fun g => g.longestRunwayFt) = [some (-100)] ∧
    ((-100 : ℚ) < 0) := by
  constructor
  · have hex : (parseFacilitiesMaster [[("id", "KABC"), ("longest_runway_ft", "-100")]]).map
        (fun g => g.longestRunwayFt) = [jsParseFloatFinite "-100"] := rfl
    rw [hex, jsParseFloatFinite_neg100]
  · norm_num

theorem dedupEntrySpec_eq_none_iff (occs : List Facility) :
    dedupEntrySpec occs = none ↔ occs = [] := by
  cases occs with
  | nil => simp [dedupEntrySpec]
  | cons f rest =>
      simp only [dedupEntrySpec]
      constructor
      · intro h
        split at h
        · exact Option.noConfusion h
        · split at h <;> exact Option.noConfusion h
      · intro h
        exact List.noConfusion h

theorem dedupEntrySpec_singleton (f : Facility) : dedupEntrySpec [f] = some f := by
  by_cases h : latTruthy f.latitude = true <;> simp [dedupEntrySpec, h, List.find?]

theorem dedupEntrySpec_append (occs : List Facility) (e f : Facility)
    (hsp : dedupEntrySpec occs = some e) :
    dedupEntrySpec (occs ++ [f]) =
      if !latTruthy e.latitude && latTruthy f.latitude then some f else some e := by
  cases occs with
  | nil => exact absurd hsp (by simp [dedupEntrySpec])
  | cons h rest =>
      rw [List.cons_append]
      simp only [dedupEntrySpec] at hsp ⊢
      by_cases hlat : latTruthy h.latitude = true
      · rw [if_pos hlat] at hsp ⊢
        rw [Option.some_inj] at hsp
        subst hsp
        rw [hlat]
        rfl
      · rw [if_neg hlat] at hsp ⊢
        rw [List.find?_append]
        cases hfind : rest.find? (fun g => latTruthy g.latitude) with
        | some g =>
            rw [hfind] at hsp
            rw [Option.some_inj] at hsp
            subst hsp
            have hg := List.find?_some hfind
            simp [hfind, hg]
        | none =>
            rw [hfind] at hsp
            rw [Option.some_inj] at hsp
            subst hsp
            rw [Bool.not_eq_true] at hlat
            cases hft : latTruthy f.latitude with
            | true => simp [hfind, hlat, hft, List.find?]
            | false => simp [hfind, hlat, hft, List.find?]

theorem alistGet_alistSet_same {α : Type} :
    ∀ (m : List (String × α)) (k : String) (v : α),
      alistGet (alistSet m k v) k = some v
  | [], k, v => by simp [alistSet, alistGet, List.find?]
  | (k', v') :: rest, k, v => by
      rw [alistSet]
      split
      · simp [alistGet, List.find?]
      · rename_i hne
        simp only [alistGet, List.find?]
        rw [show (decide (k' = k)) = false from by simpa using hne]
        exact alistGet_alistSet_same rest k v

theorem alistGet_alistSet_ne {α : Type} (k k' : String) (hne : k' ≠ k) :
    ∀ (m : List (String × α)) (v : α),
      alistGet (alistSet m k v) k' = alistGet m k'
  | [], v => by
      simp only [alistSet, alistGet, List.find?]
      rw [show (decide (k = k')) = false from by
        simp only [decide_eq_false_iff_not]
        exact fun h => hne h.symm]
  | (k2, v2) :: rest, v => by
      rw [alistSet]
      split
      · rename_i heq
        subst heq
        simp only [alistGet, List.find?]
        rw [show (decide (k2 = k')) = false from by
          simp only [decide_eq_false_iff_not]
          exact fun h => hne h.symm]
      · simp only [alistGet, List.find?]
        cases hd : decide (k2 = k') with
        | true => rfl
        | false => exact alistGet_alistSet_ne k k' hne rest v

theorem alistGet_none_iff_keys {α : Type} :
    ∀ (m : List (String × α)) (k : String),
      alistGet m k = none ↔ k ∉ m.map (·.1)
  | [], k => by simp [alistGet, List.find?]
  | (k', v') :: rest, k => by
      by_cases hk : k' = k
      · subst hk
        simp [alistGet, List.find?]
      · have h1 : alistGet ((k', v') :: rest) k = alistGet rest k := by
          simp only [alistGet, List.find?]
          rw [show decide (k' = k) = false from by simpa using hk]
        rw [h1, alistGet_none_iff_keys rest k]
        have h2 : ¬(k = k') := fun h => hk h.symm
        simp [h2]

theorem alistSet_keys_mem {α : Type} :
    ∀ (m : List (String × α)) (k : String) (v e : α), alistGet m k = some e →
      (alistSet m k v).map (·.1) = m.map (·.1)
  | [], k, v, e, h => by simp [alistGet, List.find?] at h
  | (k', v') :: rest, k, v, e, h => by
      rw [alistSet]
      split
      · rename_i heq
        subst heq
        simp
      · rename_i hne
        have h2 : alistGet rest k = some e := by
          simp only [alistGet, List.find?] at h
          rw [show decide (k' = k) = false from by simpa using hne] at h
          exact h
        simp only [List.map_cons]
        rw [alistSet_keys_mem rest k v e h2]

theorem alistSet_keys_new {α : Type} :
    ∀ (m : List (String × α)) (k : String) (v : α), alistGet m k = none →
      (alistSet m k v).map (·.1) = m.map (·.1) ++ [k]
  | [], k, v, h => by simp [alistSet]
  | (k', v') :: rest, k, v, h => by
      rw [alistSet]
      split
      · rename_i heq
        subst heq
        exfalso
        simp [alistGet, List.find?] at h
      · rename_i hne
        have h2 : alistGet rest k = none := by
          simp only [alistGet, List.find?] at h
          rw [show decide (k' = k) = false from by simpa using hne] at h
          exact h
        simp only [List.map_cons, List.cons_append]
        rw [alistSet_keys_new rest k v h2]

theorem values_find?_eq_alistGet :
    ∀ (m : List (String × Facility)), (∀ p ∈ m, p.2.id = p.1) → ∀ id : String,
      (m.map (·.2)).find? (fun f => f.id = id) = alistGet m id
  | [], _, id => by simp [alistGet, List.find?]
  | (k, v) :: rest, hval, id => by
      have hv : v.id = k := hval (k, v) (List.mem_cons_self _ _)
      simp only [List.map_cons, List.find?, alistGet, hv]
      cases hd : decide (k = id) with
      | true => rfl
      | false =>
          exact values_find?_eq_alistGet rest
            (fun p hp => hval p (List.mem_cons_of_mem _ hp)) id

/-- One `dedupCore` step preserves key-nodupness, the value-id/key link,
and the per-id `dedupEntrySpec` characterization. -/
theorem dedupCore_step (processed : List Facility) (m : List (String × Facility))
    (f : Facility)
    (hnd : (m.map (·.1)).Nodup)
    (hval : ∀ p ∈ m, p.2.id = p.1)
    (hspec : ∀ id, alistGet m id = dedupEntrySpec (processed.filter (fun g => g.id = id))) :
    ((dedupCore m f).map (·.1)).Nodup ∧
    (∀ p ∈ dedupCore m f, p.2.id = p.1) ∧
    (∀ id, alistGet (dedupCore m f) id =
      dedupEntrySpec ((processed ++ [f]).filter (fun g => g.id = id))) := by
  have hfilter : ∀ id : String, (processed ++ [f]).filter (fun g => g.id = id) =
      processed.filter (fun g => g.id = id) ++ List.filter (fun g => g.id = id) [f] :=
    fun id => List.filter_append _ _
  have hf1 : List.filter (fun g => g.id = f.id) [f] = [f] := by simp
  have hf0 : ∀ id : String, id ≠ f.id → List.filter (fun g => g.id = id) [f] = [] := by
    intro id hid
    have h2 : ¬(f.id = id) := fun h => hid h.symm
    simp [h2]
  cases hg : alistGet m f.id with
  | none =>
      have hdc : dedupCore m f = alistSet m f.id f := by
        unfold dedupCore
        rw [hg]
      rw [hdc]
      have hocc : processed.filter (fun g => g.id = f.id) = [] := by
        rw [← dedupEntrySpec_eq_none_iff, ← hspec f.id]
        exact hg
      refine ⟨?_, ?_, ?_⟩
      · rw [alistSet_keys_new m f.id f hg]
        rw [List.nodup_append]
        refine ⟨hnd, List.nodup_singleton _, ?_⟩
        intro a ha hb
        rw [List.mem_singleton] at hb
        subst hb
        exact (alistGet_none_iff_keys m f.id).mp hg ha
      · exact alistSet_preserve _ m f.id f hval rfl
      · intro id
        by_cases hid : id = f.id
        · subst hid
          rw [alistGet_alistSet_same, hfilter, hocc, List.nil_append, hf1,
            dedupEntrySpec_singleton]
        · rw [alistGet_alistSet_ne f.id id hid m f, hspec, hfilter, hf0 id hid,
            List.append_nil]
  | some existing =>
      have hsp : dedupEntrySpec (processed.filter (fun g => g.id = f.id)) = some existing := by
        rw [← hspec f.id]
        exact hg
      have hdc : dedupCore m f =
          if (!latTruthy existing.latitude && latTruthy f.latitude) = true
          then alistSet m f.id (objectSpread existing f) else m := by
        unfold dedupCore
        rw [hg]
      rw [hdc]
      by_cases hcond : (!latTruthy existing.latitude && latTruthy f.latitude) = true
      · rw [if_pos hcond]
        refine ⟨?_, ?_, ?_⟩
        · rw [alistSet_keys_mem m f.id (objectSpread existing f) existing hg]
          exact hnd
        · exact alistSet_preserve _ m f.id _ hval rfl
        · intro id
          by_cases hid : id = f.id
          · subst hid
            rw [alistGet_alistSet_same, hfilter, hf1,
              dedupEntrySpec_append _ existing f hsp, if_pos hcond]
            rfl
          · rw [alistGet_alistSet_ne f.id id hid m _, hspec, hfilter, hf0 id hid,
              List.append_nil]
      · rw [if_neg hcond]
        refine ⟨hnd, hval, ?_⟩
        intro id
        by_cases hid : id = f.id
        · subst hid
          rw [hg, hfilter, hf1, dedupEntrySpec_append _ existing f hsp, if_neg hcond]
        · rw [hspec, hfilter, hf0 id hid, List.append_nil]

theorem dedupCore_foldl_spec :
    ∀ (l processed : List Facility) (m : List (String × Facility)),
      (m.map (·.1)).Nodup →
      (∀ p ∈ m, p.2.id = p.1) →
      (∀ id, alistGet m id = dedupEntrySpec (processed.filter (fun g => g.id = id))) →
      ((l.foldl dedupCore m).map (·.1)).Nodup ∧
      (∀ p ∈ l.foldl dedupCore m, p.2.id = p.1) ∧
      (∀ id, alistGet (l.foldl dedupCore m) id =
        dedupEntrySpec ((processed ++ l).filter (fun g => g.id = id)))
  | [], processed, m, hnd, hval, hspec => by
      refine ⟨hnd, hval, ?_⟩
      intro id
      rw [List.append_nil]
      exact hspec id
  | fcur :: rest, processed, m, hnd, hval, hspec => by
      rw [List.foldl_cons]
      obtain ⟨h1, h2, h3⟩ := dedupCore_step processed m fcur hnd hval hspec
      obtain ⟨g1, g2, g3⟩ :=
        dedupCore_foldl_spec rest (processed ++ [fcur]) (dedupCore m fcur) h1 h2 h3
      refine ⟨g1, g2, ?_⟩
      intro id
      rw [g3 id, List.append_assoc, List.singleton_append]

theorem foldl_dedupStep_eq (bravo : Bool) :
    ∀ (l : List Facility) (m : List (String × Facility)),
      l.foldl (dedupStep bravo) m =
        (l.filter (fun f => !(bravo && BRAVO_EXCLUSIONS.contains f.id))).foldl
          dedupCore m
  | [], m => rfl
  | fcur :: rest, m => by
      have hstep : dedupStep bravo m fcur =
          if (bravo && BRAVO_EXCLUSIONS.contains fcur.id) = true then m
          else dedupCore m fcur := rfl
      rw [List.foldl_cons, List.filter_cons, hstep]
      cases hskip : (bravo && BRAVO_EXCLUSIONS.contains fcur.id) with
      | true =>
          rw [if_pos rfl, if_neg (by simp [hskip])]
          exact foldl_dedupStep_eq bravo rest m
      | false =>
          rw [if_neg (by simp), if_pos (by simp [hskip])]
          rw [List.foldl_cons]
          exact foldl_dedupStep_eq bravo rest (dedupCore m fcur)

/-- C7 (amended): for scope `all`, `buildScopeFacilities` returns at most
one facility per id; the entry kept for an id is the first-seen duplicate
unless that one has falsy latitude and a later duplicate has truthy
latitude, in which case that later record replaces it wholesale (the
spread `{ ...existing, ...facility }` lets every field of the later
record win, not only the coordinates). -/
theorem buildScopeFacilities_all_dedup (pub our : List Facility) (bravo : Bool) :
    ((buildScopeFacilities .all pub our bravo).map (fun f => f.id)).Nodup ∧
    (∀ id, (buildScopeFacilities .all pub our bravo).find? (fun f => f.id = id) =
      dedupEntrySpec (((scopeCombined .all pub our).filter
        (fun f => !(bravo && BRAVO_EXCLUSIONS.contains f.id))).filter
          (fun f => f.id = id))) := by
  unfold buildScopeFacilities
  rw [foldl_dedupStep_eq]
  obtain ⟨hnd, hval, hspec⟩ := dedupCore_foldl_spec
    ((scopeCombined .all pub our).filter
      (fun f => !(bravo && BRAVO_EXCLUSIONS.contains f.id)))
    [] []
    (by simp)
    (fun p hp => absurd hp (List.not_mem_nil p))
    (fun id => by simp [alistGet, List.find?, dedupEntrySpec])
  constructor
  · have hmm : (((scopeCombined .all pub our).filter
        (fun f => !(bravo && BRAVO_EXCLUSIONS.contains f.id))).foldl dedupCore []
          |>.map (·.2)).map (fun f => f.id) =
        (((scopeCombined .all pub our).filter
          (fun f => !(bravo && BRAVO_EXCLUSIONS.contains f.id))).foldl dedupCore []).map
            (·.1) := by
      rw [List.map_map]
      exact List.map_congr_left (fun p hp => hval p hp)
    rw [hmm]
    exact hnd
  · intro id
    rw [values_find?_eq_alistGet _ hval id, hspec id, List.nil_append]

/-- C7 counterexample: two public entries with the same id, the first
without latitude; the replacement keeps the later record entirely, so the
returned entry's `name` is the later `"Second"`, not the first-seen
`"First"` the claim requires. -/
theorem buildScopeFacilities_spread_replaces_counterexample :
    buildScopeFacilities .all [facFirst, facSecond] [] false = [facSecond] ∧
    facSecond.name = "Second" ∧ facFirst.name = "First" ∧
    facSecond.name ≠ facFirst.name := by
  refine ⟨by decide, rfl, rfl, by decide⟩

theorem scanFlightRows_take_filter (di fi ti : Nat) (txts : List Nat) :
    ∀ (rows : List (List String)) (run : Nat),
      scanFlightRows di fi ti txts rows run =
        ((rows.take (firstStop rows run)).filter (fun r => !isRowEmpty r)).map
          (mkFlightRow di fi ti txts)
  | [], run => rfl
  | row :: rest, run => by
      rw [scanFlightRows, firstStop]
      by_cases hs : isSectionHeader row = true
      · rw [if_pos hs, if_pos hs]
        rfl
      · rw [if_neg hs, if_neg hs]
        by_cases hb : isRowEmpty row = true
        · rw [if_pos hb, if_pos hb]
          by_cases h3 : run + 1 ≥ 3
          · rw [if_pos h3, if_pos h3]
            rfl
          · rw [if_neg h3, if_neg h3]
            rw [scanFlightRows_take_filter di fi ti txts rest (run + 1)]
            rw [List.take_succ_cons, List.filter_cons, if_neg (by simp [hb])]
        · rw [if_neg hb, if_neg hb]
          rw [scanFlightRows_take_filter di fi ti txts rest 0]
          rw [List.take_succ_cons, List.filter_cons, if_pos (by simp [hb])]
          rfl

theorem stopCondR_shift_blank (run : Nat) (row : List String)
    (rest : List (List String)) (hb : isRowEmpty row = true) :
    ∀ i, stopCondR run (row :: rest) (i + 1) = stopCondR (run + 1) rest i
  | 0 => by
      simp only [stopCondR, List.getD_cons_succ, List.getD_cons_zero, hb,
        Bool.true_and, Bool.and_true]
      rw [show decide (2 ≤ run + 1) = decide (1 ≤ run) from
        decide_eq_decide.mpr (by omega)]
  | 1 => by
      simp only [stopCondR, List.getD_cons_succ, List.getD_cons_zero, hb,
        Bool.and_true, Bool.true_and]
      rw [show decide (1 ≤ run + 1) = true from by simp]
      rw [Bool.and_true]
  | (i + 2) => by
      simp only [stopCondR, List.getD_cons_succ]

theorem stopCondR_shift_nonblank (run : Nat) (row : List String)
    (rest : List (List String)) (hb : isRowEmpty row = false) :
    ∀ i, stopCondR run (row :: rest) (i + 1) = stopCondR 0 rest i
  | 0 => by
      simp only [stopCondR, List.getD_cons_succ, List.getD_cons_zero, hb,
        Bool.and_false, Bool.false_and, Bool.or_false]
      rw [show decide (2 ≤ 0) = false from by simp]
      rw [Bool.and_false, Bool.or_false]
  | 1 => by
      simp only [stopCondR, List.getD_cons_succ, List.getD_cons_zero, hb,
        Bool.and_false, Bool.or_false]
      rw [show decide (1 ≤ 0) = false from by simp]
      rw [Bool.and_false, Bool.or_false]
  | (i + 2) => by
      simp only [stopCondR, List.getD_cons_succ]

theorem firstStop_least :
    ∀ (rows : List (List String)) (run : Nat),
      firstStop rows run ≤ rows.length ∧
      (∀ i, i < firstStop rows run → stopCondR run rows i = false) ∧
      (firstStop rows run < rows.length → stopCondR run rows (firstStop rows run) = true)
  | [], run => by
      refine ⟨Nat.le_refl 0, ?_, ?_⟩
      · intro i hi
        exact absurd hi (Nat.not_lt_zero i)
      · intro h
        exact absurd h (Nat.lt_irrefl 0)
  | row :: rest, run => by
      rw [firstStop]
      by_cases hs : isSectionHeader row = true
      · rw [if_pos hs]
        refine ⟨Nat.zero_le _, ?_, ?_⟩
        · intro i hi
          exact absurd hi (Nat.not_lt_zero i)
        · intro _
          simp [stopCondR, hs]
      · rw [if_neg hs]
        by_cases hb : isRowEmpty row = true
        · rw [if_pos hb]
          by_cases h3 : run + 1 ≥ 3
          · rw [if_pos h3]
            refine ⟨Nat.zero_le _, ?_, ?_⟩
            · intro i hi
              exact absurd hi (Nat.not_lt_zero i)
            · intro _
              simp only [stopCondR, List.getD_cons_zero, hb, Bool.true_and]
              rw [show decide (2 ≤ run) = true from by
                simp only [decide_eq_true_eq]
                omega]
              simp
          · rw [if_neg h3]
            obtain ⟨hle, hlt, heq⟩ := firstStop_least rest (run + 1)
            refine ⟨by simpa using Nat.succ_le_succ hle, ?_, ?_⟩
            · intro i hi
              cases i with
              | zero =>
                  simp only [stopCondR, List.getD_cons_zero, hb, Bool.true_and]
                  rw [show decide (2 ≤ run) = false from by
                    simp only [decide_eq_false_iff_not]
                    omega]
                  simp [Bool.not_eq_true] at hs
                  simp [hs]
              | succ j =>
                  rw [stopCondR_shift_blank run row rest hb j]
                  exact hlt j (by omega)
            · intro hlen
              rw [stopCondR_shift_blank run row rest hb (firstStop rest (run + 1))]
              exact heq (by simpa using hlen)
        · rw [if_neg hb]
          obtain ⟨hle, hlt, heq⟩ := firstStop_least rest 0
          rw [Bool.not_eq_true] at hb
          refine ⟨by simpa using Nat.succ_le_succ hle, ?_, ?_⟩
          · intro i hi
            cases i with
            | zero =>
                simp only [stopCondR, List.getD_cons_zero, hb, Bool.false_and,
                  Bool.and_false, Bool.or_false]
                simp [Bool.not_eq_true] at hs
                simp [hs]
            | succ j =>
                rw [stopCondR_shift_nonblank run row rest hb j]
                exact hlt j (by omega)
          · intro hlen
            rw [stopCondR_shift_nonblank run row rest hb (firstStop rest 0)]
            exact heq (by simpa using hlen)

/-- C4: once the flights header row is located (index `hIdx` among the
non-empty rows) and the three columns are resolved, the parsed flights
are exactly one `FlightRow` per non-blank data row (missing cells `""`)
of the scanned prefix, and the scan stops exactly at the least position
satisfying the claim's stop condition: a row whose first cell matches
the `*Table` terminator, or the third row of three consecutive
fully-blank rows (blank rows produce no `FlightRow` and a shorter blank
run is reset by the next non-blank row; the stop row(s) are excluded). -/
theorem parseForeFlightCsv_scan_characterization (pr : PapaResult) (hIdx fi ti di : Nat)
    (herr : pr.errors = [])
    (hfind : findFlightsHeaderIdx (pr.data.filter (fun r => r.length > 0)) = some hIdx)
    (hfi : findColumnIdx (((pr.data.filter (fun r => r.length > 0)).getD hIdx []).map
      normalizeHeaderCell) FROM_HEADER_ALIASES = some fi)
    (hti : findColumnIdx (((pr.data.filter (fun r => r.length > 0)).getD hIdx []).map
      normalizeHeaderCell) TO_HEADER_ALIASES = some ti)
    (hdi : findColumnIdx (((pr.data.filter (fun r => r.length > 0)).getD hIdx []).map
      normalizeHeaderCell) DATE_HEADER_ALIASES = some di) :
    ∃ L, L ≤ ((pr.data.filter (fun r => r.length > 0)).drop (hIdx + 1)).length ∧
      (parseForeFlightCsv pr).flights =
        ((((pr.data.filter (fun r => r.length > 0)).drop (hIdx + 1)).take L).filter
          (fun r => !isRowEmpty r)).map
            (mkFlightRow di fi ti
              (findTextColumns (((pr.data.filter (fun r => r.length > 0)).getD hIdx []).map
                normalizeHeaderCell))) ∧
      (∀ i, i < L →
        stopCondR 0 ((pr.data.filter (fun r => r.length > 0)).drop (hIdx + 1)) i = false) ∧
      (L < ((pr.data.filter (fun r => r.length > 0)).drop (hIdx + 1)).length →
        stopCondR 0 ((pr.data.filter (fun r => r.length > 0)).drop (hIdx + 1)) L = true) := by
  obtain ⟨data, errors⟩ := pr
  simp only at herr hfind hfi hti hdi ⊢
  subst herr
  have hred : parseForeFlightCsv ⟨data, []⟩ =
      parseForeFlightRows (data.filter (fun r => r.length > 0)) := rfl
  have hred2 : parseForeFlightRows (data.filter (fun r => r.length > 0)) =
      { flights :=
          scanFlightRows di fi ti
            (findTextColumns (((data.filter (fun r => r.length > 0)).getD hIdx []).map
              normalizeHeaderCell))
            ((data.filter (fun r => r.length > 0)).drop (hIdx + 1)) 0
        error := none } := by
    unfold parseForeFlightRows
    simp only [hfind, hfi, hti, hdi]
  obtain ⟨hle, hlt, heq⟩ :=
    firstStop_least ((data.filter (fun r => r.length > 0)).drop (hIdx + 1)) 0
  refine ⟨firstStop ((data.filter (fun r => r.length > 0)).drop (hIdx + 1)) 0,
    hle, ?_, hlt, heq⟩
  rw [hred, hred2]
  exact scanFlightRows_take_filter di fi ti _ _ 0

/-- C4 witness: the scan characterization applied to `prScan`. -/
theorem parseForeFlightCsv_scan_characterization_witness :
    ∃ L, L ≤ ((prScan.data.filter (fun r => r.length > 0)).drop (1 + 1)).length ∧
      (parseForeFlightCsv prScan).flights =
        ((((prScan.data.filter (fun r => r.length > 0)).drop (1 + 1)).take L).filter
          (fun r => !isRowEmpty r)).map
            (mkFlightRow 0 1 2
              (findTextColumns (((prScan.data.filter (fun r => r.length > 0)).getD 1 []).map
                normalizeHeaderCell))) ∧
      (∀ i, i < L →
        stopCondR 0 ((prScan.data.filter (fun r => r.length > 0)).drop (1 + 1)) i = false) ∧
      (L < ((prScan.data.filter (fun r => r.length > 0)).drop (1 + 1)).length →
        stopCondR 0 ((prScan.data.filter (fun r => r.length > 0)).drop (1 + 1)) L = true) :=
  parseForeFlightCsv_scan_characterization prScan 1 1 2 0 rfl (by decide) (by decide)
    (by decide) (by decide)

/-! ## The coordinate-endpoint fallback, for an arbitrary metric

The source computes distances with the floating-point haversine
`distanceNm`; the selection and threshold logic around it is verified
here for every metric `dist`. -/

theorem nearestCandidate_fold (dist : DistanceFn) (coord : Coordinate) :
    ∀ (rest : List Facility) (nid : String) (nd : ℚ),
      ∃ nid2 nd2,
        rest.foldl (fun acc f =>
          match acc with
          | none => some (f.id, dist coord (candCoord f))
          | some (nid, nd) =>
              if dist coord (candCoord f) < nd then some (f.id, dist coord (candCoord f))
              else some (nid, nd)) (some (nid, nd)) = some (nid2, nd2) ∧
        ((nid2 = nid ∧ nd2 = nd) ∨
          (∃ f ∈ rest, f.id = nid2 ∧ dist coord (candCoord f) = nd2)) ∧
        nd2 ≤ nd ∧
        (∀ f ∈ rest, nd2 ≤ dist coord (candCoord f))
  | [], nid, nd =>
      ⟨nid, nd, rfl, Or.inl ⟨rfl, rfl⟩, le_refl nd,
       fun f hf => absurd hf (List.not_mem_nil f)⟩
  | f :: rs, nid, nd => by
      rw [List.foldl_cons]
      by_cases hlt : dist coord (candCoord f) < nd
      · rw [show (match some (nid, nd) with
            | none => some (f.id, dist coord (candCoord f))
            | some (nid, nd) =>
                if dist coord (candCoord f) < nd then some (f.id, dist coord (candCoord f))
                else some (nid, nd)) = some (f.id, dist coord (candCoord f)) from by
          simp [hlt]]
        obtain ⟨nid2, nd2, hfold, hach, hle, hmin⟩ :=
          nearestCandidate_fold dist coord rs f.id (dist coord (candCoord f))
        refine ⟨nid2, nd2, hfold, ?_, ?_, ?_⟩
        · rcases hach with ⟨h1, h2⟩ | ⟨g, hg, hg1, hg2⟩
          · exact Or.inr ⟨f, List.mem_cons_self f rs, h1.symm ▸ rfl, h2.symm ▸ rfl⟩
          · exact Or.inr ⟨g, List.mem_cons_of_mem f hg, hg1, hg2⟩
        · exact le_trans hle (le_of_lt hlt)
        · intro g hg
          rcases List.mem_cons.mp hg with h1 | h1
          · subst h1
            exact hle
          · exact hmin g h1
      · rw [show (match some (nid, nd) with
            | none => some (f.id, dist coord (candCoord f))
            | some (nid, nd) =>
                if dist coord (candCoord f) < nd then some (f.id, dist coord (candCoord f))
                else some (nid, nd)) = some (nid, nd) from by
          simp [hlt]]
        obtain ⟨nid2, nd2, hfold, hach, hle, hmin⟩ := nearestCandidate_fold dist coord rs nid nd
        refine ⟨nid2, nd2, hfold, ?_, hle, ?_⟩
        · rcases hach with h | ⟨g, hg, hg1, hg2⟩
          · exact Or.inl h
          · exact Or.inr ⟨g, List.mem_cons_of_mem f hg, hg1, hg2⟩
        · intro g hg
          rcases List.mem_cons.mp hg with h1 | h1
          · subst h1
            exact le_trans hle (le_of_not_lt hlt)
          · exact hmin g h1

/-- The nearest-candidate scan returns an entry of the candidate list
achieving the minimum distance under the supplied metric (first
encountered wins ties). -/
theorem nearestCandidate_min (dist : DistanceFn) (coord : Coordinate)
    (f0 : Facility) (rest : List Facility) :
    ∃ nid nd, nearestCandidate dist coord (f0 :: rest) = some (nid, nd) ∧
      (∃ f ∈ f0 :: rest, f.id = nid ∧ dist coord (candCoord f) = nd) ∧
      (∀ f ∈ f0 :: rest, nd ≤ dist coord (candCoord f)) := by
  obtain ⟨nid, nd, hfold, hach, hle, hmin⟩ :=
    nearestCandidate_fold dist coord rest f0.id (dist coord (candCoord f0))
  refine ⟨nid, nd, ?_, ?_, ?_⟩
  · unfold nearestCandidate
    rw [List.foldl_cons]
    exact hfold
  · rcases hach with ⟨h1, h2⟩ | ⟨g, hg, hg1, hg2⟩
    · exact ⟨f0, List.mem_cons_self f0 rest, h1.symm ▸ rfl, h2.symm ▸ rfl⟩
    · exact ⟨g, List.mem_cons_of_mem f0 hg, hg1, hg2⟩
  · intro g hg
    rcases List.mem_cons.mp hg with h1 | h1
    · subst h1
      exact hle
    · exact hmin g h1

/-- When the normalized endpoint is not a member of the facility set, the
endpoint block reduces to the coordinate fallback. -/
theorem endpointStep_of_not_member (dist : DistanceFn) (cands : List Facility)
    (ids : List String) (m : MatchMap) (raw : String) (src : SourceType)
    (hnm : ids.contains (normalizeFacilityId raw) = false) :
    endpointStep dist cands ids m raw src =
      addCoordinateEndpointMatch dist cands ids m raw src := by
  have hmm : (if normalizeFacilityId raw ≠ "" then
      addMatch ids m (normalizeFacilityId raw) src else m) = m := by
    split
    · unfold addMatch
      rw [hnm]
      rfl
    · rfl
  unfold endpointStep
  rw [show (!(normalizeFacilityId raw ≠ "" && ids.contains (normalizeFacilityId raw)))
      = true from by
    have h2 : normalizeFacilityId raw ∉ ids := by simpa using hnm
    simp [h2]]
  rw [if_pos rfl, hmm]

/-- The statable core of the coordinate-endpoint fallback, for an
arbitrary metric standing in for the floating-point haversine
`distanceNm`: when the raw endpoint does not normalize into the facility
set, parses as a coordinate, and coordinate-bearing candidates exist,
the block finds a minimum-distance candidate (first wins ties) and
credits it exactly when that distance is at most 10 nm and its id is
truthy; the same block serves `from`/`endpoint_from` and
`to`/`endpoint_to`. -/
theorem endpointStep_coordinate_fallback (dist : DistanceFn)
    (ids : List String) (m : MatchMap) (raw : String) (src : SourceType)
    (coord : Coordinate) (f0 : Facility) (rest : List Facility)
    (hnm : ids.contains (normalizeFacilityId raw) = false)
    (hparse : parseCoordinateEndpoint raw = some coord) :
    ∃ nid nd, nearestCandidate dist coord (f0 :: rest) = some (nid, nd) ∧
      (∃ f ∈ f0 :: rest, f.id = nid ∧ dist coord (candCoord f) = nd) ∧
      (∀ f ∈ f0 :: rest, nd ≤ dist coord (candCoord f)) ∧
      endpointStep dist (f0 :: rest) ids m raw src =
        (if nid ≠ "" && nd ≤ 10 then addMatch ids m nid src else m) := by
  obtain ⟨nid, nd, hnear, hach, hmin⟩ := nearestCandidate_min dist coord f0 rest
  refine ⟨nid, nd, hnear, hach, hmin, ?_⟩
  rw [endpointStep_of_not_member dist (f0 :: rest) ids m raw src hnm]
  unfold addCoordinateEndpointMatch
  rw [if_neg (by simp)]
  simp only [hparse, hnear]

end Landings
